import Mathlib

/-!
Verification of the server-manager process supervisor.

The definitions below are shallow embeddings of the Go source:
`MetricsRingBuffer` / `EventStore` (circular buffers), the supervisor's
`startExecProcess` / `stopExecProcess` / exit watcher / service helpers,
the monitor loop's per-target service reconciliation, the request-layer
handlers `handleStop` / `handleStopAll`, `tailFile`, and the `WSHub`
broadcast path.  Machine floats (CPU percent, memory) are modelled as
integers: no claim depends on float arithmetic, only on fields being
cleared to zero or copied around.  Wall-clock times are modelled as
natural-number milliseconds; Go's `time.Time` zero value is `Option.none`.
-/

namespace ServerManager

/-! ## Ring buffers (`metrics.go` `MetricsRingBuffer`, events `EventStore`)

Both Go ring buffers share one algorithm over a fixed array of capacity
`C` (3600 metric points, 500 events), a `head` index and a `count`.  We
embed the algorithm once, generically in the element type, with the
backing array as a function `Nat → α` indexed modulo `C`. -/

structure RingBuffer (α : Type) where
  data : Nat → α
  head : Nat
  count : Nat

/-- `Push` from `metrics.go` (identically `Record` from the event store):
if not yet full increment `count`, otherwise advance `head`; then write
the new element at `(head + count - 1) % C`. -/
def RingBuffer.push (C : Nat) (rb : RingBuffer α) (x : α) : RingBuffer α :=
  let count' := if rb.count < C then rb.count + 1 else rb.count
  let head' := if rb.count < C then rb.head else (rb.head + 1) % C
  let idx := (head' + count' - 1) % C
  { data := Function.update rb.data idx x, head := head', count := count' }

/-- `Last` from `metrics.go`: clamp `n` to `count`, then read the `n`
most recent entries in chronological order. -/
def RingBuffer.last (C : Nat) (rb : RingBuffer α) (n : Nat) : List α :=
  let n := min n rb.count
  (List.range n).map (fun i => rb.data ((rb.head + rb.count - n + i) % C))

/-- A zero-initialised buffer (Go's zero value for the embedded array). -/
def RingBuffer.empty (d : α) : RingBuffer α :=
  { data := fun _ => d, head := 0, count := 0 }

/-- Push a whole list of elements, oldest first. -/
def RingBuffer.pushAll (C : Nat) (rb : RingBuffer α) (xs : List α) : RingBuffer α :=
  xs.foldl (RingBuffer.push C) rb

/-- The logical content of the buffer, oldest to newest. -/
def RingBuffer.toList (C : Nat) (rb : RingBuffer α) : List α :=
  rb.last C rb.count

def metricsCapacity : Nat := 3600
def eventsCapacity : Nat := 500

/-- One sample of `MetricsRingBuffer` (floats modelled as integers). -/
structure MetricPoint where
  timestampMS : Int
  cpu : Int
  memMB : Int
deriving DecidableEq

instance : Inhabited MetricPoint := ⟨⟨0, 0, 0⟩⟩

/-- One entry of the shared `EventStore`. -/
structure Event where
  timestampMS : Int
  processID : String
  processName : String
  type : String
deriving DecidableEq

instance : Inhabited Event := ⟨⟨0, "", "", ""⟩⟩

/-- The representation invariant tying a `RingBuffer` to the list `xs` of
all elements ever pushed: the buffer holds the last `min |xs| C` of them,
laid out circularly from `head`. -/
def RingBuffer.Inv (C : Nat) (d : α) (xs : List α) (rb : RingBuffer α) : Prop :=
  rb.count = min xs.length C ∧ rb.head < C ∧
    ∀ i, i < rb.count → rb.data ((rb.head + i) % C) = xs.getD (xs.length - rb.count + i) d

theorem RingBuffer.inv_empty (C : Nat) (hC : 0 < C) (d : α) :
    RingBuffer.Inv C d [] (RingBuffer.empty d) := by
  refine ⟨by simp [RingBuffer.empty], by simpa [RingBuffer.empty] using hC, ?_⟩
  intro i hi
  simp [RingBuffer.empty] at hi

/-- Key modular-arithmetic fact: addresses `(h+i) % C` with `h, i, j < C`
collide only when `i = j`. -/
theorem mod_window_inj {C h i j : Nat} (hh : h < C) (hi : i < C) (hj : j < C)
    (he : (h + i) % C = (h + j) % C) : i = j := by
  rcases Nat.lt_or_ge (h + i) C with h1 | h1
  · rcases Nat.lt_or_ge (h + j) C with h2 | h2
    · rw [Nat.mod_eq_of_lt h1, Nat.mod_eq_of_lt h2] at he; omega
    · rw [Nat.mod_eq_of_lt h1, Nat.mod_eq_sub_mod h2,
        Nat.mod_eq_of_lt (by omega)] at he
      omega
  · rcases Nat.lt_or_ge (h + j) C with h2 | h2
    · rw [Nat.mod_eq_sub_mod h1, Nat.mod_eq_of_lt (by omega),
        Nat.mod_eq_of_lt h2] at he
      omega
    · rw [Nat.mod_eq_sub_mod h1, Nat.mod_eq_of_lt (by omega),
        Nat.mod_eq_sub_mod h2, Nat.mod_eq_of_lt (by omega)] at he
      omega

theorem RingBuffer.inv_push (C : Nat) (hC : 0 < C) (d : α) (xs : List α)
    (rb : RingBuffer α) (hinv : RingBuffer.Inv C d xs rb) (x : α) :
    RingBuffer.Inv C d (xs ++ [x]) (RingBuffer.push C rb x) := by
  obtain ⟨hcount, hhead, hdata⟩ := hinv
  by_cases hfull : rb.count < C
  · -- not yet full: count grows, head stays, write at (head + count) % C
    have hLeq : rb.count = xs.length := by omega
    refine ⟨?_, ?_, ?_⟩
    · show (if rb.count < C then rb.count + 1 else rb.count)
        = min (xs ++ [x]).length C
      rw [if_pos hfull, List.length_append, List.length_singleton]
      omega
    · show (if rb.count < C then rb.head else (rb.head + 1) % C) < C
      rw [if_pos hfull]; exact hhead
    · intro i hi
      simp only [RingBuffer.push, if_pos hfull] at hi ⊢
      have hidx : (rb.head + (rb.count + 1) - 1) % C = (rb.head + rb.count) % C := rfl
      rcases Nat.lt_or_ge i rb.count with hlt | hge
      · have hne : (rb.head + i) % C ≠ (rb.head + (rb.count + 1) - 1) % C := by
          rw [hidx]
          intro he
          exact absurd (mod_window_inj hhead (by omega) (by omega) he) (by omega)
        rw [Function.update_noteq hne, hdata i hlt]
        rw [show (xs ++ [x]).length - (rb.count + 1) + i
            = xs.length - rb.count + i by
          rw [List.length_append, List.length_singleton]; omega]
        rw [List.getD_append _ _ _ _ (by omega)]
      · have hieq : i = rb.count := by omega
        subst hieq
        rw [hidx, Function.update_same]
        rw [show (xs ++ [x]).length - (rb.count + 1) + rb.count = xs.length by
          rw [List.length_append, List.length_singleton]; omega]
        rw [List.getD_append_right _ _ _ _ (Nat.le_refl _)]
        simp
  · -- full: count stays at C, head advances, the oldest slot is overwritten
    have hcC : rb.count = C := by omega
    have hL : C ≤ xs.length := by omega
    -- the write index is the old head (the evicted slot)
    have hidx : ((rb.head + 1) % C + rb.count - 1) % C = rb.head := by
      rw [show (rb.head + 1) % C + rb.count - 1 = (rb.head + 1) % C + (C - 1) by
        omega]
      rw [Nat.mod_add_mod]
      rw [show rb.head + 1 + (C - 1) = rb.head + C by omega]
      rw [Nat.add_mod_right, Nat.mod_eq_of_lt hhead]
    refine ⟨?_, ?_, ?_⟩
    · show (if rb.count < C then rb.count + 1 else rb.count)
        = min (xs ++ [x]).length C
      rw [if_neg hfull, List.length_append, List.length_singleton]
      omega
    · show (if rb.count < C then rb.head else (rb.head + 1) % C) < C
      rw [if_neg hfull]; exact Nat.mod_lt _ hC
    · intro i hi
      simp only [RingBuffer.push, if_neg hfull] at hi ⊢
      rcases Nat.lt_or_ge i (C - 1) with hlt | hge
      · have haddr : ((rb.head + 1) % C + i) % C = (rb.head + (i + 1)) % C := by
          rw [Nat.mod_add_mod]
          congr 1
          omega
        rw [haddr]
        have hne : (rb.head + (i + 1)) % C ≠ ((rb.head + 1) % C + rb.count - 1) % C := by
          rw [hidx]
          intro he
          have h0 : (rb.head + (i + 1)) % C = (rb.head + 0) % C := by
            simpa [Nat.mod_eq_of_lt hhead] using he
          have := mod_window_inj hhead (by omega) hC h0
          omega
        rw [Function.update_noteq hne, hdata (i + 1) (by omega)]
        rw [show (xs ++ [x]).length - rb.count + i
            = xs.length - rb.count + (i + 1) by
          rw [List.length_append, List.length_singleton]; omega]
        rw [List.getD_append _ _ _ _ (by omega)]
      · have hieq : i = C - 1 := by omega
        subst hieq
        have haddr : ((rb.head + 1) % C + (C - 1)) % C
            = ((rb.head + 1) % C + rb.count - 1) % C := by
          congr 1; omega
        rw [haddr, Function.update_same]
        rw [show (xs ++ [x]).length - rb.count + (C - 1) = xs.length by
          rw [List.length_append, List.length_singleton]; omega]
        rw [List.getD_append_right _ _ _ _ (Nat.le_refl _)]
        simp

theorem RingBuffer.inv_pushAll (C : Nat) (hC : 0 < C) (d : α) :
    ∀ (xs ys : List α) (rb : RingBuffer α), RingBuffer.Inv C d ys rb →
      RingBuffer.Inv C d (ys ++ xs) (RingBuffer.pushAll C rb xs) := by
  intro xs
  induction xs with
  | nil => intro ys rb h; simpa [RingBuffer.pushAll] using h
  | cons x xs ih =>
    intro ys rb h
    have h1 := RingBuffer.inv_push C hC d ys rb h x
    have h2 := ih (ys ++ [x]) (RingBuffer.push C rb x) h1
    simpa [RingBuffer.pushAll, List.append_assoc] using h2

theorem RingBuffer.pushAll_inv (C : Nat) (hC : 0 < C) (d : α) (xs : List α) :
    RingBuffer.Inv C d xs (RingBuffer.pushAll C (RingBuffer.empty d) xs) := by
  simpa using RingBuffer.inv_pushAll C hC d xs [] (RingBuffer.empty d)
    (RingBuffer.inv_empty C hC d)

/-- Under the invariant, `last` returns the `min n count` most recent
elements in chronological order, i.e. a suffix of the push history. -/
theorem RingBuffer.last_eq_of_inv (C : Nat) (hC : 0 < C) (d : α) (xs : List α)
    (rb : RingBuffer α) (hinv : RingBuffer.Inv C d xs rb) (n : Nat) :
    rb.last C n = xs.drop (xs.length - min n rb.count) := by
  obtain ⟨hcount, hhead, hdata⟩ := hinv
  have hn' : min n rb.count ≤ xs.length := by omega
  apply List.ext_getElem
  · simp [RingBuffer.last]
    omega
  · intro i h1 h2
    simp only [RingBuffer.last, List.getElem_map, List.getElem_range,
      List.getElem_drop]
    have hi : i < min n rb.count := by
      simpa [RingBuffer.last] using h1
    have hj : rb.count - min n rb.count + i < rb.count := by omega
    have haddr : rb.head + rb.count - min n rb.count + i
        = rb.head + (rb.count - min n rb.count + i) := by omega
    rw [haddr, hdata _ hj]
    rw [List.getD_eq_getElem?_getD, List.getElem?_eq_getElem (by omega)]
    simp only [Option.getD_some]
    congr 1
    omega

/-! ## Supervisor data model (`process.go`)

`ManagedProcess` mirrors the Go struct.  `time.Time` zero values are
`Option.none`; the `cmd *exec.Cmd` pointer is modelled by `hasCmd`
(Go never resets it to nil once a process was spawned).  Float telemetry
fields are integers: only zeroing/copying of them is ever claimed. -/

inductive ProcessState where
  | running
  | stopped
  | crashed
  | stopping
deriving DecidableEq

structure ProcessConfig where
  id : String
  name : String
  executable : String
  args : List String
  workingDir : String
  autoRestart : Bool
  isService : Bool
  serviceName : String
  category : String
  shutdownDelay : Nat
  logMaxSizeMB : Int
  logMaxBackups : Int
  logMaxAgeDays : Int
deriving DecidableEq

structure ManagedProcess where
  config : ProcessConfig
  state : ProcessState
  pid : Int
  cpu : Int
  memoryRSS : Int
  threads : Int
  startedAt : Option Nat
  restartCount : Nat
  stoppingDeadline : Option Nat
  hasCmd : Bool
  manualStop : Bool
deriving DecidableEq

def defaultProcessConfig : ProcessConfig :=
  { id := "", name := "", executable := "", args := [], workingDir := ""
    autoRestart := false, isService := false, serviceName := "", category := ""
    shutdownDelay := 0, logMaxSizeMB := 0, logMaxBackups := 0, logMaxAgeDays := 0 }

/-- A freshly registered target (`newProcessManager`): state Stopped,
all runtime fields at their zero values. -/
def initialProcess (pc : ProcessConfig) : ManagedProcess :=
  { config := pc, state := .stopped, pid := 0, cpu := 0, memoryRSS := 0
    threads := 0, startedAt := none, restartCount := 0, stoppingDeadline := none
    hasCmd := false, manualStop := false }

instance : Inhabited ManagedProcess := ⟨initialProcess defaultProcessConfig⟩

/-- Lifecycle events recorded in the shared `EventStore`. -/
inductive EventType where
  | started
  | stoppedEv
  | crashedEv
deriving DecidableEq

/-! ## `startExecProcess`

The OS-dependent outcomes of one start attempt (log rotation, log-file
open, stdin pipe creation, `cmd.Start()`) are inputs of the embedding. -/

structure SpawnEnv where
  now : Nat
  rotateErr : Option String
  openLogErr : Option String
  pipeErr : Option String
  startErr : Option String
  newPid : Int

inductive StartErr where
  | rotateFailed
  | logOpenFailed
  | pipeFailed
  | spawnFailed
deriving DecidableEq

/-- `startExecProcess` from `process.go`.  Returns the managed record as
the Go code leaves it (the record is mutated in place under its lock),
the error reported to the caller, and the lifecycle events recorded.
Note that the restart counter and start timestamp are written *before*
any of the fallible steps. -/
def startExecProcess (env : SpawnEnv) (mp : ManagedProcess)
    (manualStart : Bool) : ManagedProcess × Option StartErr × List EventType :=
  if mp.state = .running then (mp, none, [])
  else
    let mp1 := { mp with
      restartCount := if manualStart then 0 else mp.restartCount + 1
      startedAt := some env.now }
    if mp.config.logMaxSizeMB > 0 ∧ env.rotateErr.isSome then
      (mp1, some .rotateFailed, [])
    else if env.openLogErr.isSome then (mp1, some .logOpenFailed, [])
    else if env.pipeErr.isSome then (mp1, some .pipeFailed, [])
    else if env.startErr.isSome then (mp1, some .spawnFailed, [])
    else
      ({ mp1 with hasCmd := true, pid := env.newPid, state := .running
                  manualStop := false },
       none, [.started])

/-- Fixed auto-restart delay: `time.Sleep(3 * time.Second)`. -/
def restartDelaySeconds : Nat := 3

/-- The exit watcher goroutine body in `startExecProcess` (after
`cmd.Wait()` returns): finalize the record, pick the event, and decide
whether an auto-restart is scheduled.  The decision `shouldRestart`
depends only on the manual-stop flag and the auto-restart flag — not on
the restart counter. -/
def execExit (mp : ManagedProcess) : ManagedProcess × EventType × Bool :=
  let wasManual := mp.manualStop
  ({ mp with
      state := if wasManual then .stopped else .crashed
      pid := 0, cpu := 0, memoryRSS := 0, threads := 0
      startedAt := none, stoppingDeadline := none },
   if wasManual then .stoppedEv else .crashedEv,
   !wasManual && mp.config.autoRestart)

/-! ## `stopExecProcess`

The 500 ms liveness poll is driven by the observations the OS returns:
`alive k` is the result of the `IsRunning` query on the `k`-th poll
(`none` models a gopsutil error, which the Go code treats as
still-running). -/

def pollIntervalMs : Nat := 500

/-- The polling loop of `stopExecProcess`: returns `true` when the loop
runs out of budget and the process must be force-killed, `false` when a
poll observed the process gone. -/
def pollLoop (alive : Nat → Option Bool) : Nat → Nat → Bool
  | _, 0 => true
  | k, fuel + 1 =>
    match alive k with
    | some false => false
    | _ => pollLoop alive (k + 1) fuel

structure StopActions where
  softKill : Bool
  forceKill : Bool
deriving DecidableEq

/-- Classification of one `sc queryex` output (`queryServiceStatus`):
STOP_PENDING → Stopping, RUNNING → Running, anything else → Stopped,
plus the parsed PID; `none` models a query error. -/
structure SvcQuery where
  state : ProcessState
  pid : Int

/-- OS-dependent inputs of one stop call. -/
structure StopEnv where
  now : Nat
  alive : Nat → Option Bool
  killErr : Option String
  netStopErr : Option String
  msgNotStarted : Bool
  queryResult : Option SvcQuery

/-- `stopExecProcess` from `process.go`: no-op unless Running with a live
`cmd`; set manual-stop and Stopping (plus the deadline when the
configured delay is positive); kill immediately on zero delay, otherwise
soft-kill and poll every 500 ms for `delay` seconds, force-killing if the
process was never observed gone.  The returned error is the error of
`proc.Kill()` when a force kill was issued, `nil` otherwise. -/
def stopExecProcess (env : StopEnv) (mp : ManagedProcess) :
    ManagedProcess × StopActions × Option String :=
  if mp.state ≠ .running ∨ ¬ mp.hasCmd then (mp, ⟨false, false⟩, none)
  else
    let delay := mp.config.shutdownDelay
    let mp1 := { mp with
      manualStop := true
      state := .stopping
      stoppingDeadline :=
        if delay > 0 then some (env.now + delay * 1000) else mp.stoppingDeadline }
    if delay = 0 then (mp1, ⟨false, true⟩, env.killErr)
    else
      let force := pollLoop env.alive 0 (delay * 1000 / pollIntervalMs)
      (mp1, ⟨true, force⟩, if force then env.killErr else none)

/-! ## Windows-service helpers -/

/-- `startServiceProcess`: no-op when Running; otherwise run `net start`.
`netStartErr`/`msgAlreadyStarted` model the command outcome.  The record
itself is never mutated — the monitor loop observes the new state. -/
def startServiceProcess (netStartErr : Option String)
    (msgAlreadyStarted : Bool) (mp : ManagedProcess) :
    ManagedProcess × Option String × List EventType :=
  if mp.state = .running then (mp, none, [])
  else
    match netStartErr with
    | none => (mp, none, [.started])
    | some e =>
      if msgAlreadyStarted then (mp, none, [.started])
      else (mp, some e, [])

/-- `stopServiceProcess`: no-op unless Running; set Stopping, run
`net stop`; on failure either finalize to Stopped (message says "not
started") or re-query the actual state (falling back to Running when the
query itself errors).  The stopping deadline is never touched. -/
def stopServiceProcess (netStopErr : Option String) (msgNotStarted : Bool)
    (queryResult : Option SvcQuery) (mp : ManagedProcess) :
    ManagedProcess × Option String × List EventType :=
  if mp.state ≠ .running then (mp, none, [])
  else
    let mp1 := { mp with state := .stopping }
    match netStopErr with
    | none => (mp1, none, [.stoppedEv])
    | some e =>
      if msgNotStarted then ({ mp1 with state := .stopped }, none, [])
      else
        match queryResult with
        | some q => ({ mp1 with state := q.state }, some e, [])
        | none => ({ mp1 with state := .running }, some e, [])

/-- The per-target service-reconciliation part of one monitor tick
(`monitor` in `process.go`), for a service-kind target: apply the
`sc queryex` observation (respecting the Stopping exception), then zero
telemetry when neither Running nor Stopping. -/
def monitorServiceTick (q : Option SvcQuery) (mp : ManagedProcess) :
    ManagedProcess × List EventType :=
  if ¬ mp.config.isService then (mp, [])
  else
    let step : ManagedProcess × List EventType :=
      match q with
      | none => (mp, [])
      | some obs =>
        if mp.state = .stopping then
          if obs.state = .stopped then
            ({ mp with state := .stopped, pid := 0 }, [.stoppedEv])
          else ({ mp with pid := obs.pid }, [])
        else ({ mp with state := obs.state, pid := obs.pid }, [])
    let mp' := step.1
    if mp'.state ≠ .running ∧ mp'.state ≠ .stopping then
      ({ mp' with cpu := 0, memoryRSS := 0, threads := 0 }, step.2)
    else (mp', step.2)

/-- The dispatch `startProcess` (service vs. spawned kind). -/
def startProcess (env : SpawnEnv) (netStartErr : Option String)
    (msgAlreadyStarted : Bool) (mp : ManagedProcess) (manualStart : Bool) :
    ManagedProcess × Option String × List EventType :=
  if mp.config.isService then startServiceProcess netStartErr msgAlreadyStarted mp
  else
    let r := startExecProcess env mp manualStart
    (r.1, r.2.1.map (fun _ => "start failed"), r.2.2)

/-- The dispatch `stopProcess` (service vs. spawned kind). -/
def stopProcess (env : StopEnv) (mp : ManagedProcess) :
    ManagedProcess × Option String :=
  if mp.config.isService then
    let r := stopServiceProcess env.netStopErr env.msgNotStarted env.queryResult mp
    (r.1, r.2.1)
  else
    let r := stopExecProcess env mp
    (r.1, r.2.2)

/-! ## Request-layer handlers (`handleStop`, `handleStopAll`)

The registry (`pm.processes` + `pm.order`), the in-memory configuration
(`pm.cfg.Processes`) and the persistence side effect (`saveConfig`) are
modelled explicitly; `saveCount` counts `saveConfig` calls. -/

structure ManagerState where
  procs : List ManagedProcess
  cfgProcesses : List ProcessConfig
  saveCount : Nat

/-- The `for i, pc := range pm.cfg.Processes { if pc.ID == id { ...; break } }`
pattern: update the auto-restart flag of the first entry with the given
id only. -/
def setAutoRestartInCfg (id : String) (b : Bool) :
    List ProcessConfig → List ProcessConfig
  | [] => []
  | pc :: rest =>
    if pc.id = id then { pc with autoRestart := b } :: rest
    else pc :: setAutoRestartInCfg id b rest

inductive StopResponse where
  | notFound
  | errorResp (msg : String)
  | okStopped
deriving DecidableEq

/-- `handleStop`: look the target up; stop it; on a stop error report it
and change nothing else; on success disable auto-restart on the runtime
record and the in-memory config and persist the config once. -/
def handleStop (env : StopEnv) (id : String) (s : ManagerState) :
    ManagerState × StopResponse :=
  match s.procs.findIdx? (fun mp => mp.config.id = id) with
  | none => (s, .notFound)
  | some i =>
    let mp := s.procs.getD i default
    let r := stopProcess env mp
    match r.2 with
    | some e => ({ s with procs := s.procs.set i r.1 }, .errorResp e)
    | none =>
      let mp' := { r.1 with config := { r.1.config with autoRestart := false } }
      ({ s with
          procs := s.procs.set i mp'
          cfgProcesses := setAutoRestartInCfg id false s.cfgProcesses
          saveCount := s.saveCount + 1 },
       .okStopped)

/-- The body of `handleStopAll`'s reverse loop for one id: stop (with
that target's own OS outcomes), record the error if any, disable
auto-restart on the record and the in-memory config.  No persistence
inside the loop. -/
def stopAllVisit (envs : String → StopEnv) (s : ManagerState)
    (errs : List (String × String)) (id : String) :
    ManagerState × List (String × String) :=
  match s.procs.findIdx? (fun mp => mp.config.id = id) with
  | none => (s, errs)
  | some i =>
    let mp := s.procs.getD i default
    let r := stopProcess (envs id) mp
    let errs' := match r.2 with
      | some e => errs ++ [(id, e)]
      | none => errs
    let mp' := { r.1 with config := { r.1.config with autoRestart := false } }
    ({ s with
        procs := s.procs.set i mp'
        cfgProcesses := setAutoRestartInCfg id false s.cfgProcesses },
     errs')

def stopAllLoop (envs : String → StopEnv) :
    List String → ManagerState → List (String × String) →
    ManagerState × List (String × String)
  | [], s, errs => (s, errs)
  | id :: rest, s, errs =>
    let r := stopAllVisit envs s errs id
    stopAllLoop envs rest r.1 r.2

/-- `handleStopAll`: snapshot the registration order, visit it in
reverse, then persist the configuration exactly once after the pass.
Also returns the visit order (the ids in the order the loop took them). -/
def handleStopAll (envs : String → StopEnv) (s : ManagerState) :
    ManagerState × List (String × String) × List String :=
  let order := s.procs.map (fun mp => mp.config.id)
  let r := stopAllLoop envs order.reverse s []
  ({ r.1 with saveCount := r.1.saveCount + 1 }, r.2, order.reverse)

/-! ## Reachable supervisor states (for the RuntimeRecord invariants)

One step is one complete supervisor operation on a single target's
record, with arbitrary OS outcomes: a start, a stop, the exit watcher
firing for a spawned process, one monitor-tick reconciliation, or an
auto-restart toggle.  (Locking serialises these per record, so the
per-record state evolves by such steps.) -/

inductive SupStep : ManagedProcess → ManagedProcess → Prop where
  | startStep (mp : ManagedProcess) (env : SpawnEnv) (netStartErr : Option String)
      (msgAlreadyStarted : Bool) (manual : Bool) :
      SupStep mp (startProcess env netStartErr msgAlreadyStarted mp manual).1
  | stopStep (mp : ManagedProcess) (env : StopEnv) :
      SupStep mp (stopProcess env mp).1
  | exitStep (mp : ManagedProcess) (hcmd : mp.hasCmd = true)
      (hsvc : mp.config.isService = false)
      (hst : mp.state = .running ∨ mp.state = .stopping) :
      SupStep mp (execExit mp).1
  | tickStep (mp : ManagedProcess) (q : Option SvcQuery) :
      SupStep mp (monitorServiceTick q mp).1
  | toggleStep (mp : ManagedProcess) (b : Bool) :
      SupStep mp { mp with config := { mp.config with autoRestart := b } }

/-- A record state reachable from registration of config `pc`. -/
def Reachable (pc : ProcessConfig) (mp : ManagedProcess) : Prop :=
  Relation.ReflTransGen SupStep (initialProcess pc) mp

/-! ## Log tailing (`tailFile` and `sanitizeLine`)

The file content is the list of its decoded characters (the CP437
byte→rune decoding, an external library call, is the identity on the
printable ASCII range all claims use). -/

def escChar : Char := Char.ofNat 27

/-- Consume `[0-9;]*[A-Za-z]` (the tail of a CSI escape); `some r`
returns what follows the final letter, `none` means the regex
alternative does not match here. -/
def csiScan : List Char → Option (List Char)
  | [] => none
  | c :: rest =>
    if c.isAlpha then some rest
    else if c.isDigit || c = ';' then csiScan rest
    else none

theorem csiScan_length : ∀ {l r : List Char}, csiScan l = some r →
    r.length < l.length := by
  intro l
  induction l with
  | nil => intro r h; simp [csiScan] at h
  | cons c rest ih =>
    intro r h
    simp only [csiScan] at h
    split_ifs at h with h1 h2
    · cases h; simp
    · exact Nat.lt_trans (ih h) (by simp)

/-- Removal of all matches of the `ansiEscape` regular expression
`ESC ( "[" [0-9;]* letter | anything-but-"[" )`, scanning left to
right as Go's `ReplaceAllString` does; an `ESC` at which neither
alternative matches stays in the output. -/
def stripAnsi : List Char → List Char
  | [] => []
  | c :: rest =>
    if c = escChar then
      match rest with
      | [] => [c]
      | d :: rest2 =>
        if d = '[' then
          match hscan : csiScan rest2 with
          | some rest3 => stripAnsi rest3
          | none => c :: stripAnsi (d :: rest2)
        else stripAnsi rest2
    else c :: stripAnsi rest
termination_by l => l.length
decreasing_by
  · have := csiScan_length hscan
    simp only [List.length_cons]
    omega
  · simp only [List.length_cons]
    omega
  · simp only [List.length_cons]
    omega
  · simp only [List.length_cons]
    omega

/-- The keep-condition of `sanitizeLine`'s control-character filter
(`r >= 0x20 || r == '\t'`). -/
def keepPrintable (c : Char) : Bool := 0x20 ≤ c.toNat || c = '\t'

/-- `sanitizeLine` (CP437 decoding modeled as the identity, see above):
strip ANSI escapes, then drop non-printable control characters. -/
def sanitizeLine (l : List Char) : List Char :=
  (stripAnsi l).filter keepPrintable

/-- `strings.TrimRight`: remove the longest run of characters satisfying
`bad` from the end. -/
def trimRightChars (bad : Char → Bool) (l : List Char) : List Char :=
  (l.reverse.dropWhile bad).reverse

def isCRLF (c : Char) : Bool := c = '\r' || c = '\n'

def isCR (c : Char) : Bool := c = '\r'

/-- `strings.Split` on `'\n'`. -/
def splitNl : List Char → List (List Char)
  | [] => [[]]
  | c :: rest =>
    if c = '\n' then [] :: splitNl rest
    else
      match splitNl rest with
      | [] => [[c]]
      | l :: ls => (c :: l) :: ls

/-- `tailFile`'s 128 KiB read window. -/
def maxRead : Nat := 131072

/-- `tailFile` from the request-layer file: seek to `max(0, size −
128 KiB)`, on a positive offset discard up to and including the first
newline, trim trailing CR/LF, split on newlines, per line trim a
trailing CR and sanitize, and keep the last `n` lines.  The Go function
additionally returns I/O errors from open/stat/seek/read, which a pure
content model cannot produce; an empty file yields `[]`, not an error. -/
def tailFile (content : List Char) (n : Nat) : List (List Char) :=
  let size := content.length
  if size = 0 then []
  else
    let offset := size - maxRead
    let text := content.drop offset
    let text :=
      if 0 < offset then
        match text.findIdx? (fun c => c = '\n') with
        | some idx => text.drop (idx + 1)
        | none => text
      else text
    let text := trimRightChars isCRLF text
    if text = [] then []
    else
      let lines := (splitNl text).map (fun l => sanitizeLine (trimRightChars isCR l))
      if n < lines.length then lines.drop (lines.length - n) else lines

/-! ## Broadcast hub (`WSHub`)

One shared bounded channel (`msgCh`, capacity 64) feeds a single
delivery loop that writes each dequeued message synchronously to every
registered client, pruning clients whose write fails. -/

def chanCapacity : Nat := 64

structure WSHub where
  clients : List Nat
  msgCh : List (List Char)

/-- `WSHub.broadcast`: non-blocking send on the shared channel; the
message is dropped entirely when the channel is full. -/
def WSHub.enqueue (h : WSHub) (msg : List Char) : WSHub :=
  if h.msgCh.length < chanCapacity then { h with msgCh := h.msgCh ++ [msg] } else h

/-- `broadcast(data)`: serialize the payload once (`json.Marshal`) and
enqueue the single serialized message. -/
def WSHub.broadcast (ser : α → List Char) (h : WSHub) (payload : α) : WSHub :=
  WSHub.enqueue h (ser payload)

/-- One iteration of `WSHub.run`: dequeue a message and write it to
every client; clients whose write fails are closed and removed. -/
def WSHub.runStep (writeOk : Nat → Bool) (h : WSHub) :
    WSHub × List (Nat × List Char) :=
  match h.msgCh with
  | [] => (h, [])
  | msg :: rest =>
    ({ clients := h.clients.filter writeOk, msgCh := rest },
     (h.clients.filter writeOk).map (fun c => (c, msg)))

/-- Run the delivery loop `fuel` times, collecting every delivery. -/
def WSHub.drain (writeOk : Nat → Bool) : Nat → WSHub → WSHub × List (Nat × List Char)
  | 0, h => (h, [])
  | fuel + 1, h =>
    let r := WSHub.runStep writeOk h
    let r2 := WSHub.drain writeOk fuel r.1
    (r2.1, r.2 ++ r2.2)

/-! ## Helper lemmas -/

theorem pollLoop_eq_false_iff (alive : Nat → Option Bool) :
    ∀ fuel k, pollLoop alive k fuel = false ↔
      ∃ j, j < fuel ∧ alive (k + j) = some false := by
  intro fuel
  induction fuel with
  | zero => intro k; simp [pollLoop]
  | succ n ih =>
    intro k
    simp only [pollLoop]
    cases halive : alive k with
    | none =>
      simp only []
      rw [ih (k + 1)]
      constructor
      · rintro ⟨j, hj, ha⟩
        exact ⟨j + 1, by omega, by rw [show k + (j + 1) = k + 1 + j by omega]; exact ha⟩
      · rintro ⟨j, hj, ha⟩
        match j with
        | 0 => rw [Nat.add_zero, halive] at ha; cases ha
        | j + 1 =>
          exact ⟨j, by omega, by rw [show k + 1 + j = k + (j + 1) by omega]; exact ha⟩
    | some b =>
      cases b with
      | false =>
        constructor
        · intro _; exact ⟨0, by omega, by simpa using halive⟩
        · intro _; rfl
      | true =>
        simp only []
        rw [ih (k + 1)]
        constructor
        · rintro ⟨j, hj, ha⟩
          exact ⟨j + 1, by omega, by rw [show k + (j + 1) = k + 1 + j by omega]; exact ha⟩
        · rintro ⟨j, hj, ha⟩
          match j with
          | 0 => rw [Nat.add_zero, halive] at ha; cases ha
          | j + 1 =>
            exact ⟨j, by omega, by rw [show k + 1 + j = k + (j + 1) by omega]; exact ha⟩

/-! ## Concrete fixtures used by witnesses and counterexamples -/

def execCfg : ProcessConfig :=
  { defaultProcessConfig with
      id := "worker", name := "Worker", executable := "worker.exe"
      shutdownDelay := 5, autoRestart := true }

def runningExec : ManagedProcess :=
  { initialProcess execCfg with
      state := .running, pid := 100, hasCmd := true, startedAt := some 50 }

def spawnFailEnv : SpawnEnv :=
  { now := 1000, rotateErr := none, openLogErr := none, pipeErr := none
    startErr := some "file not found", newPid := 0 }

def spawnOkEnv : SpawnEnv :=
  { now := 1000, rotateErr := none, openLogErr := none, pipeErr := none
    startErr := none, newPid := 321 }

/-! ## Claim theorems -/

/-- C1: for a spawned-executable target whose OS process exits while the
state is Running, the exit watcher moves the state to Stopped recording a
"stopped" event when the manual-stop flag is set, else to Crashed
recording a "crashed" event; PID, CPU, memory, thread count, start
timestamp and stopping deadline are cleared; and an auto-restart (fixed
3-second delay) is scheduled exactly when the exit was not manual and
auto-restart is enabled — a decision independent of the restart counter,
so there is no attempt ceiling. -/
theorem spec_C1_exit_watcher (mp : ManagedProcess)
    (_hsvc : mp.config.isService = false) (_hrun : mp.state = .running) :
    ((execExit mp).1.state = if mp.manualStop then .stopped else .crashed) ∧
    ((execExit mp).2.1 = if mp.manualStop then .stoppedEv else .crashedEv) ∧
    (execExit mp).1.pid = 0 ∧ (execExit mp).1.cpu = 0 ∧
    (execExit mp).1.memoryRSS = 0 ∧ (execExit mp).1.threads = 0 ∧
    (execExit mp).1.startedAt = none ∧
    (execExit mp).1.stoppingDeadline = none ∧
    ((execExit mp).2.2 = (!mp.manualStop && mp.config.autoRestart)) ∧
    (∀ n : Nat, (execExit { mp with restartCount := n }).2.2 = (execExit mp).2.2) ∧
    restartDelaySeconds = 3 := by
  refine ⟨?_, ?_, rfl, rfl, rfl, rfl, rfl, rfl, rfl, fun n => rfl, rfl⟩ <;>
    by_cases h : mp.manualStop <;> simp [execExit, h]

theorem spec_C1_witness :
    (runningExec.config.isService = false ∧ runningExec.state = .running) ∧
    (((execExit runningExec).1.state =
        if runningExec.manualStop then .stopped else .crashed) ∧
     ((execExit runningExec).2.1 =
        if runningExec.manualStop then .stoppedEv else .crashedEv) ∧
     (execExit runningExec).1.pid = 0 ∧ (execExit runningExec).1.cpu = 0 ∧
     (execExit runningExec).1.memoryRSS = 0 ∧ (execExit runningExec).1.threads = 0 ∧
     (execExit runningExec).1.startedAt = none ∧
     (execExit runningExec).1.stoppingDeadline = none ∧
     ((execExit runningExec).2.2 =
        (!runningExec.manualStop && runningExec.config.autoRestart)) ∧
     (∀ n : Nat, (execExit { runningExec with restartCount := n }).2.2 =
        (execExit runningExec).2.2) ∧
     restartDelaySeconds = 3) :=
  ⟨⟨rfl, rfl⟩, spec_C1_exit_watcher runningExec rfl rfl⟩

/-- C2 counterexample: a failed spawn does *not* leave the record fully
unchanged.  Starting a Stopped worker with restart counter 5 when
`cmd.Start()` fails reports the failure, but the restart counter has
been reset to 0 and the start timestamp has been overwritten. -/
theorem spec_C2_counterexample :
    (startExecProcess spawnFailEnv
        { runningExec with state := .stopped, restartCount := 5 } true).2.1
      = some .spawnFailed ∧
    (startExecProcess spawnFailEnv
        { runningExec with state := .stopped, restartCount := 5 } true).1.restartCount
      = 0 ∧
    ({ runningExec with state := .stopped, restartCount := 5 } :
        ManagedProcess).restartCount = 5 ∧
    (startExecProcess spawnFailEnv
        { runningExec with state := .stopped, restartCount := 5 } true).1.startedAt
      = some 1000 ∧
    ({ runningExec with state := .stopped, restartCount := 5 } :
        ManagedProcess).startedAt = some 50 := by
  refine ⟨?_, ?_, rfl, ?_, rfl⟩ <;> rfl

/-- C2 (amended): when start on a spawned-executable target fails (log
rotation, log sink, stdin pipe, or process creation), the failure is
reported synchronously and the lifecycle state, OS identifier, `cmd`
handle and manual-stop flag are unchanged and no event is recorded — but
the restart counter and start timestamp have already been overwritten
(reset/incremented counter, fresh timestamp) and are not rolled back. -/
theorem spec_C2_amended (env : SpawnEnv) (mp : ManagedProcess) (manual : Bool)
    (herr : (startExecProcess env mp manual).2.1.isSome) :
    (startExecProcess env mp manual).1.state = mp.state ∧
    (startExecProcess env mp manual).1.pid = mp.pid ∧
    (startExecProcess env mp manual).1.hasCmd = mp.hasCmd ∧
    (startExecProcess env mp manual).1.manualStop = mp.manualStop ∧
    (startExecProcess env mp manual).2.2 = [] ∧
    (startExecProcess env mp manual).1.restartCount =
      (if manual then 0 else mp.restartCount + 1) ∧
    (startExecProcess env mp manual).1.startedAt = some env.now := by
  by_cases hrun : mp.state = .running
  · simp [startExecProcess, hrun] at herr
  · simp only [startExecProcess, if_neg hrun] at herr ⊢
    split_ifs at herr ⊢ <;> simp_all

theorem spec_C2_amended_witness :
    ((startExecProcess spawnFailEnv
        { runningExec with state := .stopped, restartCount := 5 } true).2.1.isSome) ∧
    ((startExecProcess spawnFailEnv
        { runningExec with state := .stopped, restartCount := 5 } true).1.state
        = ({ runningExec with state := .stopped, restartCount := 5 } :
            ManagedProcess).state ∧
     (startExecProcess spawnFailEnv
        { runningExec with state := .stopped, restartCount := 5 } true).1.pid
        = ({ runningExec with state := .stopped, restartCount := 5 } :
            ManagedProcess).pid ∧
     (startExecProcess spawnFailEnv
        { runningExec with state := .stopped, restartCount := 5 } true).1.hasCmd
        = ({ runningExec with state := .stopped, restartCount := 5 } :
            ManagedProcess).hasCmd ∧
     (startExecProcess spawnFailEnv
        { runningExec with state := .stopped, restartCount := 5 } true).1.manualStop
        = ({ runningExec with state := .stopped, restartCount := 5 } :
            ManagedProcess).manualStop ∧
     (startExecProcess spawnFailEnv
        { runningExec with state := .stopped, restartCount := 5 } true).2.2 = [] ∧
     (startExecProcess spawnFailEnv
        { runningExec with state := .stopped, restartCount := 5 } true).1.restartCount
        = (if true then 0
           else ({ runningExec with state := .stopped, restartCount := 5 } :
              ManagedProcess).restartCount + 1) ∧
     (startExecProcess spawnFailEnv
        { runningExec with state := .stopped, restartCount := 5 } true).1.startedAt
        = some spawnFailEnv.now) :=
  ⟨by rfl, spec_C2_amended spawnFailEnv
    { runningExec with state := .stopped, restartCount := 5 } true (by rfl)⟩

/-- C3: on a start of a non-Running spawned-executable target, a manual
start resets the restart counter to 0 and an auto-restart start
increments it by exactly one; and no other supervisor operation resets
the counter — an auto start yields 0 only if the counter was already 0
and unchanged, and the exit watcher, stop paths, service paths and
monitor reconciliation all preserve the counter. -/
theorem spec_C3_restart_counter :
    (∀ (env : SpawnEnv) (mp : ManagedProcess), mp.state ≠ .running →
        (startExecProcess env mp true).1.restartCount = 0 ∧
        (startExecProcess env mp false).1.restartCount = mp.restartCount + 1) ∧
    (∀ (env : SpawnEnv) (mp : ManagedProcess),
        (startExecProcess env mp false).1.restartCount = 0 →
        mp.restartCount = 0 ∧
        (startExecProcess env mp false).1.restartCount = mp.restartCount) ∧
    (∀ mp : ManagedProcess, (execExit mp).1.restartCount = mp.restartCount) ∧
    (∀ (env : StopEnv) (mp : ManagedProcess),
        (stopExecProcess env mp).1.restartCount = mp.restartCount) ∧
    (∀ (e : Option String) (b : Bool) (q : Option SvcQuery) (mp : ManagedProcess),
        (stopServiceProcess e b q mp).1.restartCount = mp.restartCount) ∧
    (∀ (e : Option String) (b : Bool) (mp : ManagedProcess),
        (startServiceProcess e b mp).1.restartCount = mp.restartCount) ∧
    (∀ (q : Option SvcQuery) (mp : ManagedProcess),
        (monitorServiceTick q mp).1.restartCount = mp.restartCount) := by
  refine ⟨?_, ?_, ?_, ?_, ?_, ?_, ?_⟩
  · intro env mp h
    constructor <;> simp [startExecProcess, h] <;> split_ifs <;> rfl
  · intro env mp h
    by_cases hrun : mp.state = .running
    · simp [startExecProcess, hrun] at h ⊢
      exact h
    · simp only [startExecProcess, if_neg hrun] at h
      split_ifs at h <;> simp_all
  · intro mp; rfl
  · intro env mp
    simp only [stopExecProcess]
    split_ifs <;> rfl
  · intro e b q mp
    by_cases h1 : mp.state ≠ .running
    · simp [stopServiceProcess, h1]
    · cases e with
      | none => simp [stopServiceProcess, h1]
      | some s =>
        by_cases h2 : b
        · simp [stopServiceProcess, h1, h2]
        · cases q <;> simp [stopServiceProcess, h1, h2]
  · intro e b mp
    by_cases h1 : mp.state = .running
    · simp [startServiceProcess, h1]
    · cases e with
      | none => simp [startServiceProcess, h1]
      | some s => by_cases h2 : b <;> simp [startServiceProcess, h1, h2]
  · intro q mp
    by_cases h1 : mp.config.isService
    · cases q with
      | none =>
        simp only [monitorServiceTick, h1]
        split_ifs <;> rfl
      | some obs =>
        by_cases h2 : mp.state = .stopping
        · by_cases h3 : obs.state = .stopped <;>
            (simp only [monitorServiceTick, h1, h2, h3, not_true, if_true,
              if_false, ite_true, ite_false, not_false_iff]
             split_ifs <;> simp_all)
        · simp only [monitorServiceTick, h1, h2]
          split_ifs <;> simp_all
    · simp [monitorServiceTick, h1]

theorem spec_C3_witness :
    ({ runningExec with state := .stopped } : ManagedProcess).state ≠ .running ∧
    ((startExecProcess spawnOkEnv { runningExec with state := .stopped }
        true).1.restartCount = 0 ∧
     (startExecProcess spawnOkEnv { runningExec with state := .stopped }
        false).1.restartCount =
       ({ runningExec with state := .stopped } : ManagedProcess).restartCount + 1) :=
  ⟨by decide, spec_C3_restart_counter.1 spawnOkEnv
    { runningExec with state := .stopped } (by decide)⟩

/-- C4: stop() on a Running spawned-executable target: with a zero
configured shutdown timeout the process is force-killed immediately with
no soft-terminate; with a positive timeout a soft-terminate is issued and
liveness is polled at the fixed 500 ms interval (2·delay polls across
delay seconds), force-killing exactly when no poll observed the process
gone; the record moves to Stopping with the manual-stop flag set, so the
exit watcher finalizes it to Stopped in either case. -/
theorem spec_C4_graceful_stop (env : StopEnv) (mp : ManagedProcess)
    (hrun : mp.state = .running) (hcmd : mp.hasCmd = true)
    (_hsvc : mp.config.isService = false) :
    (stopExecProcess env mp).1.state = .stopping ∧
    (stopExecProcess env mp).1.manualStop = true ∧
    (mp.config.shutdownDelay = 0 →
      (stopExecProcess env mp).2.1 = ⟨false, true⟩) ∧
    (0 < mp.config.shutdownDelay →
      (stopExecProcess env mp).2.1.softKill = true ∧
      ((stopExecProcess env mp).2.1.forceKill = false ↔
        ∃ j, j < 2 * mp.config.shutdownDelay ∧ env.alive j = some false)) ∧
    pollIntervalMs = 500 ∧
    (execExit (stopExecProcess env mp).1).1.state = .stopped := by
  by_cases hd : mp.config.shutdownDelay = 0
  · refine ⟨?_, ?_, fun _ => ?_, fun h0 => absurd hd (by omega), rfl, ?_⟩ <;>
      simp [stopExecProcess, hrun, hcmd, hd, execExit]
  · have hfuel : mp.config.shutdownDelay * 1000 / 500
        = 2 * mp.config.shutdownDelay := by omega
    refine ⟨?_, ?_, fun h0 => absurd h0 hd, fun _ => ⟨?_, ?_⟩, rfl, ?_⟩
    · simp [stopExecProcess, hrun, hcmd, hd]
    · simp [stopExecProcess, hrun, hcmd, hd]
    · simp [stopExecProcess, hrun, hcmd, hd]
    · have h2 : (stopExecProcess env mp).2.1.forceKill
          = pollLoop env.alive 0 (2 * mp.config.shutdownDelay) := by
        simp [stopExecProcess, pollIntervalMs, hrun, hcmd, hd, hfuel]
      rw [h2, pollLoop_eq_false_iff]
      simp
    · simp [stopExecProcess, hrun, hcmd, hd, execExit]

theorem spec_C4_witness :
    (runningExec.state = .running ∧ runningExec.hasCmd = true ∧
     runningExec.config.isService = false) ∧
    ((stopExecProcess
        { now := 0, alive := fun _ => some false, killErr := none,
          netStopErr := none, msgNotStarted := false, queryResult := none }
        runningExec).1.state = .stopping ∧
     (stopExecProcess
        { now := 0, alive := fun _ => some false, killErr := none,
          netStopErr := none, msgNotStarted := false, queryResult := none }
        runningExec).1.manualStop = true ∧
     (runningExec.config.shutdownDelay = 0 →
       (stopExecProcess
          { now := 0, alive := fun _ => some false, killErr := none,
            netStopErr := none, msgNotStarted := false, queryResult := none }
          runningExec).2.1 = ⟨false, true⟩) ∧
     (0 < runningExec.config.shutdownDelay →
       (stopExecProcess
          { now := 0, alive := fun _ => some false, killErr := none,
            netStopErr := none, msgNotStarted := false, queryResult := none }
          runningExec).2.1.softKill = true ∧
       ((stopExecProcess
            { now := 0, alive := fun _ => some false, killErr := none,
              netStopErr := none, msgNotStarted := false, queryResult := none }
            runningExec).2.1.forceKill = false ↔
         ∃ j, j < 2 * runningExec.config.shutdownDelay ∧
           (fun _ : Nat => some false) j = some false)) ∧
     pollIntervalMs = 500 ∧
     (execExit (stopExecProcess
        { now := 0, alive := fun _ => some false, killErr := none,
          netStopErr := none, msgNotStarted := false, queryResult := none }
        runningExec).1).1.state = .stopped) :=
  ⟨⟨rfl, rfl, rfl⟩,
   spec_C4_graceful_stop
     { now := 0, alive := fun _ => some false, killErr := none,
       netStopErr := none, msgNotStarted := false, queryResult := none }
     runningExec rfl rfl rfl⟩

/-! ## Record-preservation lemmas for the step relation -/

theorem startServiceProcess_record (e : Option String) (b : Bool)
    (mp : ManagedProcess) : (startServiceProcess e b mp).1 = mp := by
  by_cases h1 : mp.state = .running
  · simp [startServiceProcess, h1]
  · cases e with
    | none => simp [startServiceProcess, h1]
    | some s => by_cases h2 : b <;> simp [startServiceProcess, h1, h2]

theorem startExecProcess_config (env : SpawnEnv) (mp : ManagedProcess)
    (m : Bool) : (startExecProcess env mp m).1.config = mp.config := by
  by_cases h1 : mp.state = .running
  · simp [startExecProcess, h1]
  · simp only [startExecProcess, if_neg h1]
    split_ifs <;> rfl

theorem startExecProcess_deadline (env : SpawnEnv) (mp : ManagedProcess)
    (m : Bool) :
    (startExecProcess env mp m).1.stoppingDeadline = mp.stoppingDeadline := by
  by_cases h1 : mp.state = .running
  · simp [startExecProcess, h1]
  · simp only [startExecProcess, if_neg h1]
    split_ifs <;> rfl

theorem stopExecProcess_config (env : StopEnv) (mp : ManagedProcess) :
    (stopExecProcess env mp).1.config = mp.config := by
  simp only [stopExecProcess]
  split_ifs <;> rfl

theorem stopServiceProcess_config (e : Option String) (b : Bool)
    (q : Option SvcQuery) (mp : ManagedProcess) :
    (stopServiceProcess e b q mp).1.config = mp.config := by
  by_cases h1 : mp.state ≠ .running
  · simp [stopServiceProcess, h1]
  · cases e with
    | none => simp [stopServiceProcess, h1]
    | some s =>
      by_cases h2 : b
      · simp [stopServiceProcess, h1, h2]
      · cases q <;> simp [stopServiceProcess, h1, h2]

theorem stopServiceProcess_deadline (e : Option String) (b : Bool)
    (q : Option SvcQuery) (mp : ManagedProcess) :
    (stopServiceProcess e b q mp).1.stoppingDeadline = mp.stoppingDeadline := by
  by_cases h1 : mp.state ≠ .running
  · simp [stopServiceProcess, h1]
  · cases e with
    | none => simp [stopServiceProcess, h1]
    | some s =>
      by_cases h2 : b
      · simp [stopServiceProcess, h1, h2]
      · cases q <;> simp [stopServiceProcess, h1, h2]

theorem monitorServiceTick_config (q : Option SvcQuery) (mp : ManagedProcess) :
    (monitorServiceTick q mp).1.config = mp.config := by
  by_cases h1 : mp.config.isService
  · cases q with
    | none =>
      simp only [monitorServiceTick, h1]
      split_ifs <;> simp_all
    | some obs =>
      by_cases h2 : mp.state = .stopping
      · by_cases h3 : obs.state = .stopped <;>
          (simp only [monitorServiceTick, h1, h2, h3]
           split_ifs <;> simp_all)
      · simp only [monitorServiceTick, h1, h2]
        split_ifs <;> simp_all
  · simp [monitorServiceTick, h1]

theorem monitorServiceTick_deadline (q : Option SvcQuery) (mp : ManagedProcess) :
    (monitorServiceTick q mp).1.stoppingDeadline = mp.stoppingDeadline := by
  by_cases h1 : mp.config.isService
  · cases q with
    | none =>
      simp only [monitorServiceTick, h1]
      split_ifs <;> simp_all
    | some obs =>
      by_cases h2 : mp.state = .stopping
      · by_cases h3 : obs.state = .stopped <;>
          (simp only [monitorServiceTick, h1, h2, h3]
           split_ifs <;> simp_all)
      · simp only [monitorServiceTick, h1, h2]
        split_ifs <;> simp_all
  · simp [monitorServiceTick, h1]

/-- The per-record invariant the code actually maintains: whenever a
stopping deadline is present, the target is a spawned executable with a
nonzero configured shutdown timeout. -/
def DeadlineInv (mp : ManagedProcess) : Prop :=
  mp.stoppingDeadline.isSome →
    mp.config.isService = false ∧ 0 < mp.config.shutdownDelay

theorem supStep_deadlineInv {a b : ManagedProcess} (h : SupStep a b)
    (hinv : DeadlineInv a) : DeadlineInv b := by
  cases h with
  | startStep env e bb manual =>
    by_cases hsvc : a.config.isService
    · intro hd
      rw [startProcess, if_pos hsvc, startServiceProcess_record] at hd ⊢
      exact hinv hd
    · intro hd
      rw [startProcess, if_neg hsvc] at hd ⊢
      simp only [startExecProcess_deadline] at hd
      simp only [startExecProcess_config]
      exact hinv hd
  | stopStep env =>
    by_cases hsvc : a.config.isService
    · intro hd
      rw [stopProcess, if_pos hsvc] at hd ⊢
      simp only [stopServiceProcess_deadline] at hd
      simp only [stopServiceProcess_config]
      exact hinv hd
    · intro hd
      rw [stopProcess, if_neg hsvc] at hd ⊢
      simp only [stopExecProcess_config]
      by_cases hguard : a.state ≠ .running ∨ ¬ a.hasCmd
      · rw [stopExecProcess, if_pos hguard] at hd
        exact hinv hd
      · by_cases hdelay : a.config.shutdownDelay = 0
        · rw [stopExecProcess, if_neg hguard, if_pos hdelay] at hd
          rw [if_neg (show ¬ a.config.shutdownDelay > 0 by omega)] at hd
          exact hinv hd
        · exact ⟨by simpa using hsvc, by omega⟩
  | exitStep hcmd hsvc hst =>
    intro hd
    simp [execExit] at hd
  | tickStep q =>
    intro hd
    rw [monitorServiceTick_deadline] at hd
    rw [monitorServiceTick_config]
    exact hinv hd
  | toggleStep bb =>
    intro hd
    exact hinv hd

theorem reachable_deadlineInv (pc : ProcessConfig) (mp : ManagedProcess)
    (h : Reachable pc mp) : DeadlineInv mp := by
  induction h with
  | refl => intro hd; simp [initialProcess] at hd
  | tail _ hstep ih => exact supStep_deadlineInv hstep ih

/-! ## C9 fixtures: two reachable states violating the claimed iff -/

def svcCfg : ProcessConfig :=
  { defaultProcessConfig with
      id := "db", name := "Database", isService := true
      serviceName := "db-svc", shutdownDelay := 5 }

def plainStopEnv : StopEnv :=
  { now := 7, alive := fun _ => some false, killErr := none
    netStopErr := none, msgNotStarted := false, queryResult := none }

def svcRunningQ : SvcQuery := { state := .running, pid := 42 }

/-- A service observed Running by the monitor, then stopped: state is
Stopping, a nonzero timeout is configured, yet no deadline is set. -/
def svcBad : ManagedProcess :=
  (stopProcess plainStopEnv
    (monitorServiceTick (some svcRunningQ) (initialProcess svcCfg)).1).1

theorem reachable_svcBad : Reachable svcCfg svcBad :=
  Relation.ReflTransGen.tail
    (Relation.ReflTransGen.single
      (SupStep.tickStep (initialProcess svcCfg) (some svcRunningQ)))
    (SupStep.stopStep _ plainStopEnv)

/-- A spawned executable started, stopped (deadline set), then started
again while still in the Stopping window: Running with a stale deadline. -/
def execStale : ManagedProcess :=
  (startProcess spawnOkEnv none false
    (stopProcess plainStopEnv
      (startProcess spawnOkEnv none false (initialProcess execCfg) true).1).1
    true).1

theorem reachable_execStale : Reachable execCfg execStale :=
  Relation.ReflTransGen.tail
    (Relation.ReflTransGen.tail
      (Relation.ReflTransGen.single
        (SupStep.startStep (initialProcess execCfg) spawnOkEnv none false true))
      (SupStep.stopStep _ plainStopEnv))
    (SupStep.startStep _ spawnOkEnv none false true)

/-- C9 counterexample: the claimed invariant — deadline set iff state =
Stopping and a nonzero timeout configured — fails in reachable states for
both kinds.  `svcBad` is a Stopping service with a configured 5-second
timeout and no deadline; `execStale` is a Running spawned executable that
still carries a deadline. -/
theorem spec_C9_counterexample :
    (Reachable svcCfg svcBad ∧ svcBad.state = .stopping ∧
      0 < svcBad.config.shutdownDelay ∧ svcBad.stoppingDeadline = none) ∧
    (Reachable execCfg execStale ∧ execStale.state = .running ∧
      execStale.stoppingDeadline = some 5007) :=
  ⟨⟨reachable_svcBad, by decide, by decide, by decide⟩,
   ⟨reachable_execStale, by decide, by decide⟩⟩

/-- C9 (amended): in every reachable state, a set stopping-deadline
implies the target is a spawned executable with a nonzero configured
shutdown timeout (the full iff does not hold: see the counterexample).
Per transition: stop() on a Running spawned executable sets state
Stopping and sets the deadline exactly when the configured timeout is
nonzero (leaving it untouched when the timeout is zero); the exit
watcher always clears it; service stops and monitor reconciliation never
touch it. -/
theorem spec_C9_amended :
    (∀ (pc : ProcessConfig) (mp : ManagedProcess), Reachable pc mp →
      mp.stoppingDeadline.isSome →
      mp.config.isService = false ∧ 0 < mp.config.shutdownDelay) ∧
    (∀ (env : StopEnv) (mp : ManagedProcess),
      mp.state = .running → mp.hasCmd = true →
      (stopExecProcess env mp).1.state = .stopping ∧
      (0 < mp.config.shutdownDelay →
        (stopExecProcess env mp).1.stoppingDeadline
          = some (env.now + mp.config.shutdownDelay * 1000)) ∧
      (mp.config.shutdownDelay = 0 →
        (stopExecProcess env mp).1.stoppingDeadline = mp.stoppingDeadline)) ∧
    (∀ mp : ManagedProcess, (execExit mp).1.stoppingDeadline = none) ∧
    (∀ (e : Option String) (b : Bool) (q : Option SvcQuery)
        (mp : ManagedProcess),
      (stopServiceProcess e b q mp).1.stoppingDeadline = mp.stoppingDeadline) ∧
    (∀ (q : Option SvcQuery) (mp : ManagedProcess),
      (monitorServiceTick q mp).1.stoppingDeadline = mp.stoppingDeadline) := by
  refine ⟨reachable_deadlineInv, ?_, fun mp => rfl,
    stopServiceProcess_deadline, monitorServiceTick_deadline⟩
  intro env mp hrun hcmd
  refine ⟨?_, ?_, ?_⟩
  · simp only [stopExecProcess, hrun, hcmd]
    simp
    split_ifs <;> rfl
  · intro hpos
    simp only [stopExecProcess, hrun, hcmd]
    simp [hpos]
    split_ifs <;> rfl
  · intro hzero
    simp only [stopExecProcess, hrun, hcmd]
    simp [hzero]

theorem spec_C9_amended_witness :
    (Reachable execCfg execStale ∧ execStale.stoppingDeadline.isSome ∧
      (execStale.config.isService = false ∧
        0 < execStale.config.shutdownDelay)) ∧
    (runningExec.state = .running ∧ runningExec.hasCmd = true ∧
      ((stopExecProcess plainStopEnv runningExec).1.state = .stopping ∧
       (0 < runningExec.config.shutdownDelay →
         (stopExecProcess plainStopEnv runningExec).1.stoppingDeadline
           = some (plainStopEnv.now + runningExec.config.shutdownDelay * 1000)) ∧
       (runningExec.config.shutdownDelay = 0 →
         (stopExecProcess plainStopEnv runningExec).1.stoppingDeadline
           = runningExec.stoppingDeadline))) :=
  ⟨⟨reachable_execStale, by decide,
    spec_C9_amended.1 execCfg execStale reachable_execStale (by decide)⟩,
   ⟨rfl, rfl, spec_C9_amended.2.1 plainStopEnv runningExec rfl rfl⟩⟩

/-! ## Ring-buffer claim -/

theorem ring_capacity_plus_one (C : Nat) (hC : 0 < C) (d : α) (x : α)
    (xs : List α) (hlen : xs.length = C) :
    (RingBuffer.pushAll C (RingBuffer.empty d) (x :: xs)).count = C ∧
    RingBuffer.toList C (RingBuffer.pushAll C (RingBuffer.empty d) (x :: xs))
      = xs := by
  have hinv := RingBuffer.pushAll_inv C hC d (x :: xs)
  have hcount := hinv.1
  constructor
  · rw [hcount]
    simp [hlen]
  · rw [RingBuffer.toList, RingBuffer.last_eq_of_inv C hC d _ _ hinv, hcount]
    have h1 : (x :: xs).length -
        min (min (x :: xs).length C) (min (x :: xs).length C) = 1 := by
      simp only [List.length_cons, hlen]
      omega
    rw [h1]
    rfl

theorem ring_lastK (C : Nat) (hC : 0 < C) (d : α) (xs : List α) (k : Nat) :
    RingBuffer.last C (RingBuffer.pushAll C (RingBuffer.empty d) xs) k
      = xs.drop (xs.length - min k (min xs.length C)) := by
  have hinv := RingBuffer.pushAll_inv C hC d xs
  rw [RingBuffer.last_eq_of_inv C hC d _ _ hinv, hinv.1]

/-- C5: for both fixed-capacity ring buffers (3600 metric samples,
500 shared events), pushing capacity+1 entries into an empty buffer
leaves exactly `capacity` entries with the oldest evicted first (the
content is the input without its first element), and `Last`/`All`-style
reads return the `min k count` most recent entries in chronological
order (a suffix of the push history), with `k` clamped to the count. -/
theorem spec_C5_ring_buffers :
    (∀ (x : MetricPoint) (xs : List MetricPoint), xs.length = metricsCapacity →
      (RingBuffer.pushAll metricsCapacity (RingBuffer.empty default)
          (x :: xs)).count = metricsCapacity ∧
      RingBuffer.toList metricsCapacity
        (RingBuffer.pushAll metricsCapacity (RingBuffer.empty default)
          (x :: xs)) = xs) ∧
    (∀ (x : Event) (xs : List Event), xs.length = eventsCapacity →
      (RingBuffer.pushAll eventsCapacity (RingBuffer.empty default)
          (x :: xs)).count = eventsCapacity ∧
      RingBuffer.toList eventsCapacity
        (RingBuffer.pushAll eventsCapacity (RingBuffer.empty default)
          (x :: xs)) = xs) ∧
    (∀ (xs : List MetricPoint) (k : Nat),
      RingBuffer.last metricsCapacity
        (RingBuffer.pushAll metricsCapacity (RingBuffer.empty default) xs) k
        = xs.drop (xs.length - min k (min xs.length metricsCapacity))) ∧
    (∀ (xs : List Event) (k : Nat),
      RingBuffer.last eventsCapacity
        (RingBuffer.pushAll eventsCapacity (RingBuffer.empty default) xs) k
        = xs.drop (xs.length - min k (min xs.length eventsCapacity))) :=
  ⟨fun x xs hlen =>
      ring_capacity_plus_one metricsCapacity (by norm_num [metricsCapacity])
        default x xs hlen,
   fun x xs hlen =>
      ring_capacity_plus_one eventsCapacity (by norm_num [eventsCapacity])
        default x xs hlen,
   fun xs k =>
      ring_lastK metricsCapacity (by norm_num [metricsCapacity]) default xs k,
   fun xs k =>
      ring_lastK eventsCapacity (by norm_num [eventsCapacity]) default xs k⟩

theorem spec_C5_witness :
    ((List.replicate metricsCapacity (default : MetricPoint)).length
        = metricsCapacity ∧
      ((RingBuffer.pushAll metricsCapacity (RingBuffer.empty default)
          (default :: List.replicate metricsCapacity (default : MetricPoint))).count
          = metricsCapacity ∧
       RingBuffer.toList metricsCapacity
         (RingBuffer.pushAll metricsCapacity (RingBuffer.empty default)
           (default :: List.replicate metricsCapacity (default : MetricPoint)))
         = List.replicate metricsCapacity (default : MetricPoint))) ∧
    ((List.replicate eventsCapacity (default : Event)).length = eventsCapacity ∧
      ((RingBuffer.pushAll eventsCapacity (RingBuffer.empty default)
          (default :: List.replicate eventsCapacity (default : Event))).count
          = eventsCapacity ∧
       RingBuffer.toList eventsCapacity
         (RingBuffer.pushAll eventsCapacity (RingBuffer.empty default)
           (default :: List.replicate eventsCapacity (default : Event)))
         = List.replicate eventsCapacity (default : Event))) :=
  ⟨⟨List.length_replicate _ _,
    spec_C5_ring_buffers.1 default
      (List.replicate metricsCapacity default) (List.length_replicate _ _)⟩,
   ⟨List.length_replicate _ _,
    spec_C5_ring_buffers.2.1 default
      (List.replicate eventsCapacity default) (List.length_replicate _ _)⟩⟩

/-! ## Request-handler lemmas -/

theorem findIdx?_lt_length {α : Type} {p : α → Bool} :
    ∀ {l : List α} {i : Nat}, l.findIdx? p = some i → i < l.length := by
  intro l
  induction l with
  | nil => intro i h; simp [List.findIdx?] at h
  | cons a t ih =>
    intro i h
    rw [List.findIdx?_cons] at h
    by_cases hp : p a
    · simp [hp] at h
      simp [← h]
    · simp [hp] at h
      obtain ⟨j, hj, rfl⟩ := h
      have := ih hj
      simp only [List.length_cons]
      omega

theorem findIdx?_found {α : Type} (d : α) {p : α → Bool} :
    ∀ {l : List α} {i : Nat}, l.findIdx? p = some i → p (l.getD i d) = true := by
  intro l
  induction l with
  | nil => intro i h; simp [List.findIdx?] at h
  | cons a t ih =>
    intro i h
    rw [List.findIdx?_cons] at h
    by_cases hp : p a
    · simp [hp] at h
      simp [← h, hp]
    · simp [hp] at h
      obtain ⟨j, hj, rfl⟩ := h
      simpa using ih hj

theorem getD_set_self {α : Type} (l : List α) (i : Nat) (a d : α)
    (h : i < l.length) : (l.set i a).getD i d = a := by
  rw [List.getD_eq_getD_get?, List.get?_eq_getElem?,
    List.getElem?_set_eq_of_lt a h]
  rfl

theorem stopProcess_config (env : StopEnv) (mp : ManagedProcess) :
    (stopProcess env mp).1.config = mp.config := by
  by_cases h : mp.config.isService
  · simp [stopProcess, h, stopServiceProcess_config]
  · simp [stopProcess, h, stopExecProcess_config]

theorem setAutoRestartInCfg_ids (id : String) (b : Bool) :
    ∀ cfg : List ProcessConfig,
      (setAutoRestartInCfg id b cfg).map (fun pc => pc.id)
        = cfg.map (fun pc => pc.id) := by
  intro cfg
  induction cfg with
  | nil => rfl
  | cons pc rest ih =>
    by_cases h : pc.id = id <;> simp [setAutoRestartInCfg, h, ih]

theorem setAutoRestartInCfg_mem (id : String) (b : Bool) :
    ∀ cfg : List ProcessConfig, (cfg.map (fun pc => pc.id)).Nodup →
      ∀ pc ∈ setAutoRestartInCfg id b cfg, pc.id = id → pc.autoRestart = b := by
  intro cfg
  induction cfg with
  | nil => intro _ pc h; simp [setAutoRestartInCfg] at h
  | cons pc0 rest ih =>
    intro hnd pc hmem hid
    rw [List.map_cons] at hnd
    have hnd' := List.nodup_cons.mp hnd
    by_cases h0 : pc0.id = id
    · simp only [setAutoRestartInCfg, if_pos h0, List.mem_cons] at hmem
      rcases hmem with rfl | hmem
      · rfl
      · exact absurd (by rw [h0, ← hid]; exact List.mem_map_of_mem _ hmem) hnd'.1
    · simp only [setAutoRestartInCfg, if_neg h0, List.mem_cons] at hmem
      rcases hmem with rfl | hmem
      · exact absurd hid h0
      · exact ih hnd'.2 pc hmem hid

theorem setAutoRestartInCfg_false_mono (id i0 : String) :
    ∀ cfg : List ProcessConfig,
      (∀ pc ∈ cfg, pc.id = i0 → pc.autoRestart = false) →
      ∀ pc ∈ setAutoRestartInCfg id false cfg, pc.id = i0 →
        pc.autoRestart = false := by
  intro cfg
  induction cfg with
  | nil => intro _ pc h; simp [setAutoRestartInCfg] at h
  | cons pc0 rest ih =>
    intro hall pc hmem hid
    by_cases h0 : pc0.id = id
    · simp only [setAutoRestartInCfg, if_pos h0, List.mem_cons] at hmem
      rcases hmem with rfl | hmem
      · rfl
      · exact hall pc (List.mem_cons_of_mem _ hmem) hid
    · simp only [setAutoRestartInCfg, if_neg h0, List.mem_cons] at hmem
      rcases hmem with rfl | hmem
      · exact hall pc (List.mem_cons_self _ _) hid
      · exact ih (fun pc h => hall pc (List.mem_cons_of_mem _ h)) pc hmem hid

/-- C10: a successful stop through the request layer additionally turns
the target's auto-restart flag off — in the runtime record (the updated
registry slot) and in the in-memory configuration — and persists the
configuration to disk (one `saveConfig` call), an effect the spec
describes only for stopAll. -/
theorem spec_C10_handleStop (env : StopEnv) (id : String) (s : ManagerState)
    (hok : (handleStop env id s).2 = .okStopped)
    (hnodup : (s.cfgProcesses.map (fun pc => pc.id)).Nodup) :
    (∃ i, s.procs.findIdx? (fun mp => mp.config.id = id) = some i ∧
      ((handleStop env id s).1.procs.getD i default).config.autoRestart
        = false ∧
      ((handleStop env id s).1.procs.getD i default).config.id = id) ∧
    (∀ pc ∈ (handleStop env id s).1.cfgProcesses, pc.id = id →
      pc.autoRestart = false) ∧
    (handleStop env id s).1.cfgProcesses
      = setAutoRestartInCfg id false s.cfgProcesses ∧
    (handleStop env id s).1.saveCount = s.saveCount + 1 := by
  rcases hfind : s.procs.findIdx? (fun mp => mp.config.id = id) with _ | i
  · rw [handleStop, hfind] at hok
    cases hok
  · have hlt := findIdx?_lt_length hfind
    have hid : (s.procs.getD i default).config.id = id := by
      simpa using findIdx?_found default hfind
    rcases herr : (stopProcess env (s.procs.getD i default)).2 with _ | e
    · -- stop succeeded
      have hred : handleStop env id s =
          ({ s with
              procs := s.procs.set i
                { (stopProcess env (s.procs.getD i default)).1 with
                    config := { (stopProcess env
                      (s.procs.getD i default)).1.config with
                        autoRestart := false } }
              cfgProcesses := setAutoRestartInCfg id false s.cfgProcesses
              saveCount := s.saveCount + 1 }, .okStopped) := by
        rw [handleStop, hfind]
        simp only [herr]
      refine ⟨⟨i, hfind, ?_, ?_⟩, ?_, ?_, ?_⟩
      · rw [hred]
        simp only []
        rw [getD_set_self _ _ _ _ hlt]
      · rw [hred]
        simp only []
        rw [getD_set_self _ _ _ _ hlt]
        simp only [stopProcess_config]
        exact hid
      · rw [hred]
        exact setAutoRestartInCfg_mem id false s.cfgProcesses hnodup
      · rw [hred]
      · rw [hred]
    · -- stop failed: response is errorResp, contradicting hok
      rw [handleStop, hfind] at hok
      simp only [herr] at hok
      cases hok

theorem spec_C10_witness :
    ((handleStop plainStopEnv "worker"
        { procs := [runningExec], cfgProcesses := [execCfg], saveCount := 0 }).2
      = .okStopped ∧
     (([execCfg].map (fun pc => pc.id)).Nodup)) ∧
    ((∃ i, [runningExec].findIdx? (fun mp => mp.config.id = "worker") = some i ∧
        ((handleStop plainStopEnv "worker"
            { procs := [runningExec], cfgProcesses := [execCfg],
              saveCount := 0 }).1.procs.getD i default).config.autoRestart
          = false ∧
        ((handleStop plainStopEnv "worker"
            { procs := [runningExec], cfgProcesses := [execCfg],
              saveCount := 0 }).1.procs.getD i default).config.id = "worker") ∧
     (∀ pc ∈ (handleStop plainStopEnv "worker"
          { procs := [runningExec], cfgProcesses := [execCfg],
            saveCount := 0 }).1.cfgProcesses, pc.id = "worker" →
        pc.autoRestart = false) ∧
     (handleStop plainStopEnv "worker"
        { procs := [runningExec], cfgProcesses := [execCfg],
          saveCount := 0 }).1.cfgProcesses
       = setAutoRestartInCfg "worker" false [execCfg] ∧
     (handleStop plainStopEnv "worker"
        { procs := [runningExec], cfgProcesses := [execCfg],
          saveCount := 0 }).1.saveCount = 0 + 1) :=
  ⟨⟨by decide, by decide⟩,
   spec_C10_handleStop plainStopEnv "worker"
     { procs := [runningExec], cfgProcesses := [execCfg], saveCount := 0 }
     (by decide) (by decide)⟩

/-! ## stopAll lemmas -/

/-- The record written back by one stopAll visit. -/
def visitResult (envs : String → StopEnv) (id : String)
    (mp : ManagedProcess) : ManagedProcess :=
  { (stopProcess (envs id) mp).1 with
      config := { (stopProcess (envs id) mp).1.config with autoRestart := false } }

theorem stopAllVisit_found (envs : String → StopEnv) (s : ManagerState)
    (errs : List (String × String)) (id : String) (i : Nat)
    (hfind : s.procs.findIdx? (fun mp => mp.config.id = id) = some i) :
    stopAllVisit envs s errs id =
      ({ s with
          procs := s.procs.set i (visitResult envs id (s.procs.getD i default))
          cfgProcesses := setAutoRestartInCfg id false s.cfgProcesses },
       errs ++ ((stopProcess (envs id) (s.procs.getD i default)).2.map
         (fun e => (id, e))).toList) := by
  rw [stopAllVisit, hfind]
  rcases herr : (stopProcess (envs id) (s.procs.getD i default)).2 with _ | e
  · simp only []
    rw [herr]
    simp [visitResult]
  · simp only []
    rw [herr]
    simp [visitResult]

theorem stopAllVisit_notFound (envs : String → StopEnv) (s : ManagerState)
    (errs : List (String × String)) (id : String)
    (hfind : s.procs.findIdx? (fun mp => mp.config.id = id) = none) :
    stopAllVisit envs s errs id = (s, errs) := by
  rw [stopAllVisit, hfind]

theorem map_id_set (l : List ManagedProcess) (i : Nat) (a : ManagedProcess)
    (hid : a.config.id = (l.getD i default).config.id) :
    (l.set i a).map (fun mp => mp.config.id)
      = l.map (fun mp => mp.config.id) := by
  apply List.ext_getElem
  · simp
  · intro j h1 h2
    simp only [List.getElem_map]
    by_cases hji : j = i
    · subst hji
      rw [List.getElem_set_self (by simpa using h2), hid,
        List.getD_eq_getElem _ _ (by simpa using h2)]
    · rw [List.getElem_set_of_ne (fun he => hji he.symm)]

theorem visitResult_id (envs : String → StopEnv) (id : String)
    (mp : ManagedProcess) :
    (visitResult envs id mp).config.id = mp.config.id := by
  simp [visitResult, stopProcess_config]

theorem stopAllVisit_ids (envs : String → StopEnv) (s : ManagerState)
    (errs : List (String × String)) (id : String) :
    (stopAllVisit envs s errs id).1.procs.map (fun mp => mp.config.id)
      = s.procs.map (fun mp => mp.config.id) := by
  rcases hfind : s.procs.findIdx? (fun mp => mp.config.id = id) with _ | i
  · rw [stopAllVisit_notFound envs s errs id hfind]
  · rw [stopAllVisit_found envs s errs id i hfind]
    exact map_id_set _ _ _ (visitResult_id envs id _)

theorem stopAllVisit_cfg_ids (envs : String → StopEnv) (s : ManagerState)
    (errs : List (String × String)) (id : String) :
    (stopAllVisit envs s errs id).1.cfgProcesses.map (fun pc => pc.id)
      = s.cfgProcesses.map (fun pc => pc.id) := by
  rcases hfind : s.procs.findIdx? (fun mp => mp.config.id = id) with _ | i
  · rw [stopAllVisit_notFound envs s errs id hfind]
  · rw [stopAllVisit_found envs s errs id i hfind]
    exact setAutoRestartInCfg_ids id false s.cfgProcesses

theorem stopAllVisit_saveCount (envs : String → StopEnv) (s : ManagerState)
    (errs : List (String × String)) (id : String) :
    (stopAllVisit envs s errs id).1.saveCount = s.saveCount := by
  rcases hfind : s.procs.findIdx? (fun mp => mp.config.id = id) with _ | i
  · rw [stopAllVisit_notFound envs s errs id hfind]
  · rw [stopAllVisit_found envs s errs id i hfind]

theorem stopAllLoop_saveCount (envs : String → StopEnv) :
    ∀ (ids : List String) (s : ManagerState) (errs : List (String × String)),
      (stopAllLoop envs ids s errs).1.saveCount = s.saveCount := by
  intro ids
  induction ids with
  | nil => intro s errs; rfl
  | cons id rest ih =>
    intro s errs
    rw [stopAllLoop, ih, stopAllVisit_saveCount]

theorem stopAllLoop_procs_disabled (envs : String → StopEnv) :
    ∀ (ids : List String) (s : ManagerState) (errs : List (String × String)),
      (s.procs.map (fun mp => mp.config.id)).Nodup →
      (∀ j (hj : j < s.procs.length),
        (s.procs[j]).config.id ∈ ids ∨
          (s.procs[j]).config.autoRestart = false) →
      ∀ mp ∈ (stopAllLoop envs ids s errs).1.procs,
        mp.config.autoRestart = false := by
  intro ids
  induction ids with
  | nil =>
    intro s errs _ hall mp hmem
    obtain ⟨j, hj, rfl⟩ := List.mem_iff_getElem.mp hmem
    rcases hall j hj with h | h
    · simp at h
    · exact h
  | cons id rest ih =>
    intro s errs hnd hall
    rw [stopAllLoop]
    rcases hfind : s.procs.findIdx? (fun mp => mp.config.id = id) with _ | i
    · rw [stopAllVisit_notFound envs s errs id hfind]
      apply ih s errs hnd
      intro j hj
      rcases hall j hj with h | h
      · rcases List.mem_cons.mp h with he | he
        · exfalso
          have := (List.findIdx?_eq_none_iff.mp hfind) (s.procs[j])
            (List.getElem_mem _)
          simp only [he] at this
          simp at this
        · exact Or.inl he
      · exact Or.inr h
    · have hlt := findIdx?_lt_length hfind
      have hidI : (s.procs.getD i default).config.id = id := by
        simpa using findIdx?_found default hfind
      rw [stopAllVisit_found envs s errs id i hfind]
      apply ih
      · simp only []
        rw [map_id_set _ _ _ (visitResult_id envs id _)]
        exact hnd
      · intro j hj
        simp only [List.length_set] at hj
        by_cases hji : j = i
        · subst hji
          right
          rw [List.getElem_set_self (by simpa using hj)]
          rfl
        · rw [List.getElem_set_of_ne (fun he => hji he.symm)]
          rcases hall j hj with h | h
          · rcases List.mem_cons.mp h with he | he
            · exfalso
              apply hji
              have hj2 : j < (s.procs.map (fun mp => mp.config.id)).length := by
                simpa using hj
              have hi2 : i < (s.procs.map (fun mp => mp.config.id)).length := by
                simpa using hlt
              have h1 : (s.procs.map (fun mp => mp.config.id)).get ⟨j, hj2⟩
                  = (s.procs.map (fun mp => mp.config.id)).get ⟨i, hi2⟩ := by
                simp only [List.get_eq_getElem, List.getElem_map]
                rw [he, ← hidI, List.getD_eq_getElem _ _ hlt]
              exact (List.Nodup.getElem_inj_iff hnd).mp h1
            · exact Or.inl he
          · exact Or.inr h

theorem stopAllLoop_cfg_false_mono (envs : String → StopEnv) (i0 : String) :
    ∀ (ids : List String) (s : ManagerState) (errs : List (String × String)),
      (∀ pc ∈ s.cfgProcesses, pc.id = i0 → pc.autoRestart = false) →
      ∀ pc ∈ (stopAllLoop envs ids s errs).1.cfgProcesses, pc.id = i0 →
        pc.autoRestart = false := by
  intro ids
  induction ids with
  | nil => intro s errs hall; exact hall
  | cons id rest ih =>
    intro s errs hall
    rw [stopAllLoop]
    rcases hfind : s.procs.findIdx? (fun mp => mp.config.id = id) with _ | i
    · rw [stopAllVisit_notFound envs s errs id hfind]
      exact ih s errs hall
    · rw [stopAllVisit_found envs s errs id i hfind]
      apply ih
      exact setAutoRestartInCfg_false_mono id i0 s.cfgProcesses hall

theorem stopAllLoop_cfg_disabled (envs : String → StopEnv) :
    ∀ (ids : List String) (s : ManagerState) (errs : List (String × String)),
      (s.cfgProcesses.map (fun pc => pc.id)).Nodup →
      (∀ id ∈ ids, id ∈ s.procs.map (fun mp => mp.config.id)) →
      ∀ pc ∈ (stopAllLoop envs ids s errs).1.cfgProcesses, pc.id ∈ ids →
        pc.autoRestart = false := by
  intro ids
  induction ids with
  | nil => intro s errs _ _ pc _ h; simp at h
  | cons id rest ih =>
    intro s errs hnd hpresent pc hmem hid
    rcases hfind : s.procs.findIdx? (fun mp => mp.config.id = id) with _ | i
    · exfalso
      have hin := hpresent id (List.mem_cons_self _ _)
      obtain ⟨mp0, hmp0, hmp0id⟩ := List.mem_map.mp hin
      have := (List.findIdx?_eq_none_iff.mp hfind) mp0 hmp0
      simp [hmp0id] at this
    · rw [stopAllLoop] at hmem
      rw [stopAllVisit_found envs s errs id i hfind] at hmem
      rcases List.mem_cons.mp hid with he | he
      · -- this entry carries the visited id: it is disabled by the visit
        -- and later visits never re-enable it
        refine stopAllLoop_cfg_false_mono envs id rest _ _ ?_ pc hmem he
        simp only []
        exact setAutoRestartInCfg_mem id false s.cfgProcesses hnd
      · -- handled by the remaining visits
        refine ih _ _ ?_ ?_ pc hmem he
        · simp only []
          rw [setAutoRestartInCfg_ids]
          exact hnd
        · intro id' hid'
          simp only []
          rw [map_id_set _ _ _ (visitResult_id envs id _)]
          exact hpresent id' (List.mem_cons_of_mem _ hid')

/-- C6: `stopAll` visits the registered targets in reverse registration
order, disables auto-restart on every target exactly once (every runtime
record and every matching config entry ends with the flag off; the visit
list is exactly the reversed order, so each id is visited once), persists
the configuration exactly once after the full pass (no save inside the
loop), and records a per-id error entry exactly when that target's stop
returned an error, allowing partial failure. -/
theorem spec_C6_stopAll (envs : String → StopEnv) (s : ManagerState)
    (hnodupP : (s.procs.map (fun mp => mp.config.id)).Nodup)
    (hnodupC : (s.cfgProcesses.map (fun pc => pc.id)).Nodup) :
    (handleStopAll envs s).2.2
      = (s.procs.map (fun mp => mp.config.id)).reverse ∧
    (∀ mp ∈ (handleStopAll envs s).1.procs,
      mp.config.autoRestart = false) ∧
    (∀ pc ∈ (handleStopAll envs s).1.cfgProcesses,
      pc.id ∈ s.procs.map (fun mp => mp.config.id) →
      pc.autoRestart = false) ∧
    (handleStopAll envs s).1.saveCount = s.saveCount + 1 ∧
    (∀ (s' : ManagerState) (errs : List (String × String)) (id : String)
        (i : Nat),
      s'.procs.findIdx? (fun mp => mp.config.id = id) = some i →
      (stopAllVisit envs s' errs id).2
        = errs ++ ((stopProcess (envs id) (s'.procs.getD i default)).2.map
            (fun e => (id, e))).toList) := by
  refine ⟨rfl, ?_, ?_, ?_, ?_⟩
  · intro mp hmem
    refine stopAllLoop_procs_disabled envs _ s [] hnodupP ?_ mp hmem
    intro j hj
    left
    rw [List.mem_reverse]
    exact List.mem_map_of_mem _ (List.getElem_mem _)
  · intro pc hmem hid
    refine stopAllLoop_cfg_disabled envs _ s [] hnodupC ?_ pc hmem ?_
    · intro id hidr
      exact List.mem_reverse.mp hidr
    · rw [List.mem_reverse]
      exact hid
  · show (stopAllLoop envs _ s []).1.saveCount + 1 = s.saveCount + 1
    rw [stopAllLoop_saveCount]
  · intro s' errs id i hfind
    rw [stopAllVisit_found envs s' errs id i hfind]

theorem spec_C6_witness :
    ((([runningExec].map (fun mp => mp.config.id)).Nodup) ∧
     (([execCfg].map (fun pc => pc.id)).Nodup)) ∧
    ((handleStopAll (fun _ => plainStopEnv)
        { procs := [runningExec], cfgProcesses := [execCfg],
          saveCount := 0 }).2.2
      = (([runningExec].map (fun mp => mp.config.id)).reverse) ∧
     (∀ mp ∈ (handleStopAll (fun _ => plainStopEnv)
        { procs := [runningExec], cfgProcesses := [execCfg],
          saveCount := 0 }).1.procs, mp.config.autoRestart = false) ∧
     (handleStopAll (fun _ => plainStopEnv)
        { procs := [runningExec], cfgProcesses := [execCfg],
          saveCount := 0 }).1.saveCount = 0 + 1) := by
  have h := spec_C6_stopAll (fun _ => plainStopEnv)
    { procs := [runningExec], cfgProcesses := [execCfg], saveCount := 0 }
    (by decide) (by decide)
  exact ⟨⟨by decide, by decide⟩, h.1, h.2.1, h.2.2.2.1⟩

/-! ## tailFile lemmas -/

/-- A log file consisting of the given lines, each newline-terminated. -/
def encodeLines (ls : List (List Char)) : List Char :=
  (ls.map (fun l => l ++ ['\n'])).flatten

/-- The newline-joined (un-terminated) form of the same lines. -/
def interNl : List (List Char) → List Char
  | [] => []
  | [l] => l
  | l :: ls => l ++ '\n' :: interNl ls

/-- A plain log line: nonempty, printable ASCII (so it contains no
newline, carriage return or escape character, and sanitizing is the
identity on it). -/
def cleanLine (l : List Char) : Prop := l ≠ [] ∧ ∀ c ∈ l, 0x20 ≤ c.toNat

instance (l : List Char) : Decidable (cleanLine l) := by
  unfold cleanLine
  infer_instance

theorem stripAnsi_clean : ∀ l : List Char, escChar ∉ l → stripAnsi l = l := by
  intro l
  induction l with
  | nil => intro _; simp only [stripAnsi.eq_def]
  | cons c rest ih =>
    intro hni
    rw [stripAnsi.eq_def]
    simp only []
    rw [if_neg (fun he => hni (by rw [← he]; exact List.mem_cons_self c rest))]
    rw [ih (fun hm => hni (List.mem_cons_of_mem _ hm))]

theorem sanitizeLine_clean (l : List Char) (h : ∀ c ∈ l, 0x20 ≤ c.toNat) :
    sanitizeLine l = l := by
  rw [sanitizeLine, stripAnsi_clean l ?_, List.filter_eq_self.mpr ?_]
  · intro c hc
    have := h c hc
    simp only [keepPrintable, Bool.or_eq_true, decide_eq_true_eq]
    left
    omega
  · intro he
    have := h escChar he
    simp [escChar] at this

theorem trimRight_keep (bad : Char → Bool) (ys : List Char) (c : Char)
    (h : bad c = false) : trimRightChars bad (ys ++ [c]) = ys ++ [c] := by
  rw [trimRightChars, List.reverse_append]
  simp [List.dropWhile_cons, h]

theorem trimRight_drop (bad : Char → Bool) (ys : List Char) (c : Char)
    (h : bad c = true) :
    trimRightChars bad (ys ++ [c]) = trimRightChars bad ys := by
  rw [trimRightChars, trimRightChars, List.reverse_append]
  simp [List.dropWhile_cons, h]

theorem trimRight_eq_self (bad : Char → Bool) (l : List Char)
    (h : ∀ c ∈ l, bad c = false) : trimRightChars bad l = l := by
  rcases hrev : l.reverse with _ | ⟨c, t⟩
  · have : l = [] := by simpa using congrArg List.reverse hrev
    simp [this, trimRightChars]
  · have hc : c ∈ l := by
      rw [← List.mem_reverse, hrev]
      exact List.mem_cons_self _ _
    rw [trimRightChars, hrev, List.dropWhile_cons, h c hc]
    simp only [Bool.false_eq_true, if_false]
    rw [← hrev, List.reverse_reverse]

theorem trimRight_append (bad : Char → Bool) (xs ys : List Char)
    (h : trimRightChars bad ys ≠ []) :
    trimRightChars bad (xs ++ ys) = xs ++ trimRightChars bad ys := by
  have hdw : (ys.reverse.dropWhile bad).isEmpty = false := by
    rcases he : ys.reverse.dropWhile bad with _ | ⟨c, t⟩
    · exfalso
      apply h
      rw [trimRightChars, he]
      rfl
    · rfl
  rw [trimRightChars, trimRightChars, List.reverse_append,
    List.dropWhile_append, hdw]
  simp

theorem interNl_ne_nil (ls : List (List Char)) (hne : ls ≠ [])
    (hcl : ∀ l ∈ ls, cleanLine l) : interNl ls ≠ [] := by
  match ls with
  | [] => exact absurd rfl hne
  | [l] =>
    have := (hcl l (List.mem_cons_self _ _)).1
    simpa [interNl] using this
  | l :: l2 :: rest =>
    have := (hcl l (List.mem_cons_self _ _)).1
    simp only [interNl]
    intro hcontra
    rcases List.append_eq_nil.mp hcontra with ⟨h1, h2⟩
    cases h2

theorem trim_encode : ∀ ls : List (List Char), ls ≠ [] →
    (∀ l ∈ ls, cleanLine l) →
    trimRightChars isCRLF (encodeLines ls) = interNl ls := by
  intro ls
  induction ls with
  | nil => intro h; exact absurd rfl h
  | cons l rest ih =>
    intro _ hcl
    have hcll := hcl l (List.mem_cons_self _ _)
    have hlastok : ∀ c ∈ l, isCRLF c = false := by
      intro c hc
      have := hcll.2 c hc
      simp only [isCRLF, Bool.or_eq_false_iff, decide_eq_false_iff_not]
      constructor <;> (intro he; subst he; revert this; decide)
    cases rest with
    | nil =>
      -- single line: encode = l ++ ['\n']
      show trimRightChars isCRLF ((([l]).map (fun l => l ++ ['\n'])).flatten)
        = interNl [l]
      simp only [List.map_cons, List.map_nil, List.flatten]
      rw [List.append_nil]
      rw [trimRight_drop isCRLF l '\n' (by decide)]
      rw [trimRight_eq_self isCRLF l hlastok]
      rfl
    | cons l2 rest2 =>
      -- more lines follow
      have hne2 : (l2 :: rest2) ≠ [] := by simp
      have hcl2 : ∀ x ∈ l2 :: rest2, cleanLine x := by
        intro x hx
        exact hcl x (List.mem_cons_of_mem _ hx)
      have ihr := ih (by simp) hcl2
      show trimRightChars isCRLF
          (((l :: l2 :: rest2).map (fun l => l ++ ['\n'])).flatten)
        = interNl (l :: l2 :: rest2)
      have henc : ((l :: l2 :: rest2).map (fun l => l ++ ['\n'])).flatten
          = (l ++ ['\n']) ++ encodeLines (l2 :: rest2) := by
        simp [encodeLines]
      rw [henc, trimRight_append isCRLF _ _ ?hne]
      case hne =>
        rw [ihr]
        exact interNl_ne_nil _ hne2 hcl2
      rw [ihr]
      simp [interNl]

theorem splitNl_no_nl : ∀ l : List Char, '\n' ∉ l → splitNl l = [l] := by
  intro l
  induction l with
  | nil => intro _; rfl
  | cons c rest ih =>
    intro hni
    rw [splitNl.eq_def]
    simp only []
    rw [if_neg (fun he => hni (by rw [← he]; exact List.mem_cons_self c rest))]
    rw [ih (fun hm => hni (List.mem_cons_of_mem _ hm))]

theorem splitNl_append : ∀ xs ys : List Char, '\n' ∉ xs →
    splitNl (xs ++ '\n' :: ys) = xs :: splitNl ys := by
  intro xs
  induction xs with
  | nil =>
    intro ys _
    simp only [List.nil_append]
    rw [splitNl.eq_def]
    simp
  | cons c rest ih =>
    intro ys hni
    have hc : ¬ c = '\n' := fun he => hni (he ▸ List.mem_cons_self c rest)
    simp only [List.cons_append]
    rw [splitNl.eq_def]
    simp only []
    rw [if_neg hc, ih ys (fun hm => hni (List.mem_cons_of_mem _ hm))]

theorem splitNl_interNl : ∀ ls : List (List Char), ls ≠ [] →
    (∀ l ∈ ls, '\n' ∉ l) → splitNl (interNl ls) = ls := by
  intro ls
  induction ls with
  | nil => intro h; exact absurd rfl h
  | cons l rest ih =>
    intro _ hcl
    cases rest with
    | nil => exact splitNl_no_nl l (hcl l (List.mem_cons_self _ _))
    | cons l2 rest2 =>
      show splitNl (l ++ '\n' :: interNl (l2 :: rest2)) = l :: l2 :: rest2
      rw [splitNl_append l _ (hcl l (List.mem_cons_self _ _))]
      rw [ih (by simp) (fun x hx => hcl x (List.mem_cons_of_mem _ hx))]

theorem clean_no_nl (l : List Char) (h : cleanLine l) : '\n' ∉ l := by
  intro hm
  have := h.2 '\n' hm
  revert this
  decide

theorem encodeLines_ne_nil (ls : List (List Char)) (hne : ls ≠ []) :
    encodeLines ls ≠ [] := by
  match ls with
  | [] => exact absurd rfl hne
  | l :: rest =>
    simp only [encodeLines, List.map_cons, List.flatten]
    intro hcontra
    rcases List.append_eq_nil.mp hcontra with ⟨h1, _⟩
    rcases List.append_eq_nil.mp h1 with ⟨_, h3⟩
    cases h3

/-- The behaviour of `tailFile` on a well-formed log whose content fits
inside the 128 KiB window: it returns the last `n` lines (all lines when
`n` is at least the line count). -/
theorem tailFile_encode (ls : List (List Char)) (n : Nat) (hne : ls ≠ [])
    (hclean : ∀ l ∈ ls, cleanLine l)
    (hsize : (encodeLines ls).length ≤ maxRead) :
    tailFile (encodeLines ls) n
      = if n < ls.length then ls.drop (ls.length - n) else ls := by
  have hsz : ¬ (encodeLines ls).length = 0 := by
    simpa using encodeLines_ne_nil ls hne
  have hoffset : (encodeLines ls).length - maxRead = 0 :=
    Nat.sub_eq_zero_of_le hsize
  have htrim : trimRightChars isCRLF (encodeLines ls) = interNl ls :=
    trim_encode ls hne hclean
  have hsplit : splitNl (interNl ls) = ls :=
    splitNl_interNl ls hne (fun l hl => clean_no_nl l (hclean l hl))
  have hmapgen : ∀ ls' : List (List Char), (∀ l ∈ ls', cleanLine l) →
      ls'.map (fun l => sanitizeLine (trimRightChars isCR l)) = ls' := by
    intro ls'
    induction ls' with
    | nil => intro _; rfl
    | cons l rest ih =>
      intro hcl
      simp only [List.map_cons]
      rw [ih (fun x hx => hcl x (List.mem_cons_of_mem _ hx))]
      have hcll := hcl l (List.mem_cons_self _ _)
      have hcr : ∀ c ∈ l, isCR c = false := by
        intro c hc
        have := hcll.2 c hc
        simp only [isCR, decide_eq_false_iff_not]
        intro he
        subst he
        revert this
        decide
      rw [trimRight_eq_self isCR l hcr, sanitizeLine_clean l hcll.2]
  have hmap := hmapgen ls hclean
  rw [tailFile]
  simp only []
  rw [if_neg hsz, hoffset]
  simp only [Nat.lt_irrefl, if_false, List.drop_zero]
  rw [htrim, if_neg (interNl_ne_nil ls hne hclean), hsplit, hmap]

/-- C7: tailing a log file (the seek-to-`max(0, size − 128 KiB)` /
discard-partial-first-line / split / last-N pipeline embedded in
`tailFile`): an empty file yields an empty list, not an error; a file of
newline-terminated printable lines that fits in the 128 KiB window
yields the last `n` lines in order; in particular 100 lines with `n = 10`
yield exactly lines 91..100 in order. -/
theorem spec_C7_tailFile :
    (∀ n, tailFile [] n = []) ∧
    (∀ (ls : List (List Char)) (n : Nat), ls ≠ [] →
      (∀ l ∈ ls, cleanLine l) → (encodeLines ls).length ≤ maxRead →
      tailFile (encodeLines ls) n
        = if n < ls.length then ls.drop (ls.length - n) else ls) ∧
    (∀ ls : List (List Char), ls.length = 100 →
      (∀ l ∈ ls, cleanLine l) → (encodeLines ls).length ≤ maxRead →
      tailFile (encodeLines ls) 10 = ls.drop 90) := by
  refine ⟨fun n => rfl, tailFile_encode, ?_⟩
  intro ls hlen hclean hsize
  have hne : ls ≠ [] := by
    intro h
    rw [h] at hlen
    cases hlen
  rw [tailFile_encode ls 10 hne hclean hsize, if_pos (by omega), hlen]

set_option maxRecDepth 4000 in
theorem spec_C7_witness :
    ((List.replicate 100 ['L'] : List (List Char)).length = 100 ∧
     (∀ l ∈ (List.replicate 100 ['L'] : List (List Char)), cleanLine l) ∧
     (encodeLines (List.replicate 100 ['L'])).length ≤ maxRead) ∧
    tailFile (encodeLines (List.replicate 100 ['L'])) 10
      = (List.replicate 100 ['L'] : List (List Char)).drop 90 :=
  ⟨⟨by decide, by decide, by decide⟩,
   spec_C7_tailFile.2.2 (List.replicate 100 ['L'])
     (by decide) (by decide) (by decide)⟩

/-! ## Broadcast-hub claim -/

def fullHub : WSHub :=
  { clients := [1, 2], msgCh := List.replicate chanCapacity ['a'] }

set_option maxRecDepth 8000 in
/-- C8 counterexample: the hub has one shared bounded queue, not a
per-subscriber queue.  With the shared queue full and two registered
subscribers (both perfectly healthy), a broadcast is dropped outright:
the queue is unchanged and a complete drain never delivers the new
message to either subscriber — in particular not to subscriber 2,
contradicting per-subscriber dropping. -/
theorem spec_C8_counterexample :
    (WSHub.broadcast (fun s : String => s.data) fullHub "fresh").msgCh
      = fullHub.msgCh ∧
    (WSHub.drain (fun _ => true) (chanCapacity + 1)
        (WSHub.broadcast (fun s : String => s.data) fullHub "fresh")).1.msgCh
      = [] ∧
    ((2 : Nat), "fresh".data) ∉
      (WSHub.drain (fun _ => true) (chanCapacity + 1)
        (WSHub.broadcast (fun s : String => s.data) fullHub "fresh")).2 := by
  refine ⟨by decide, by decide, by decide⟩

/-- C8 (amended): `broadcast` serializes the payload once and performs a
non-blocking send of the single serialized message onto the one shared
bounded channel (capacity 64); when that channel is full the message is
dropped for all subscribers rather than blocking the publisher.  The
delivery loop then writes the identical serialized payload to every
registered subscriber, pruning subscribers whose write fails without
disturbing delivery to the rest. -/
theorem spec_C8_amended (ser : α → List Char) (h : WSHub) (p : α)
    (writeOk : Nat → Bool) :
    (h.msgCh.length < chanCapacity →
      (WSHub.broadcast ser h p).msgCh = h.msgCh ++ [ser p]) ∧
    (¬ h.msgCh.length < chanCapacity →
      (WSHub.broadcast ser h p).msgCh = h.msgCh ∧
      (WSHub.broadcast ser h p).clients = h.clients) ∧
    (h.msgCh = [] →
      (WSHub.runStep writeOk (WSHub.broadcast ser h p)).2
        = (h.clients.filter writeOk).map (fun c => (c, ser p)) ∧
      (WSHub.runStep writeOk (WSHub.broadcast ser h p)).1.clients
        = h.clients.filter writeOk) := by
  refine ⟨?_, ?_, ?_⟩
  · intro hlt
    simp [WSHub.broadcast, WSHub.enqueue, hlt]
  · intro hge
    constructor <;> simp [WSHub.broadcast, WSHub.enqueue, hge]
  · intro hempty
    have hb : (WSHub.broadcast ser h p).msgCh = [ser p] := by
      simp [WSHub.broadcast, WSHub.enqueue, hempty, chanCapacity]
    have hc : (WSHub.broadcast ser h p).clients = h.clients := by
      simp [WSHub.broadcast, WSHub.enqueue]
      split_ifs <;> rfl
    constructor <;> (rw [WSHub.runStep, hb]; simp [hc])

theorem spec_C8_amended_witness :
    (((⟨[1, 2], []⟩ : WSHub).msgCh.length < chanCapacity ∧
      (⟨[1, 2], []⟩ : WSHub).msgCh = ([] : List (List Char))) ∧
     ((WSHub.broadcast (fun s : String => s.data) ⟨[1, 2], []⟩ "x").msgCh
        = ([] : List (List Char)) ++ ["x".data]) ∧
     ((WSHub.runStep (fun _ => true)
         (WSHub.broadcast (fun s : String => s.data) ⟨[1, 2], []⟩ "x")).2
        = ([1, 2].filter (fun _ => true)).map (fun c => (c, "x".data)) ∧
      (WSHub.runStep (fun _ => true)
         (WSHub.broadcast (fun s : String => s.data) ⟨[1, 2], []⟩ "x")).1.clients
        = [1, 2].filter (fun _ => true))) :=
  ⟨⟨by decide, rfl⟩,
   (spec_C8_amended (fun s : String => s.data) ⟨[1, 2], []⟩ "x"
       (fun _ => true)).1 (by decide),
   (spec_C8_amended (fun s : String => s.data) ⟨[1, 2], []⟩ "x"
       (fun _ => true)).2.2 rfl⟩

end ServerManager
